import Mathlib

/-!
Shallow embedding of the task-orchestration and self-healing engine of the
blackroad-collab-board worker: the `AgentCoordinator` durable object (agent
registry, task backlog, greedy assignment, maintenance alarm), the `JobQueue`
durable object (priority lanes, retry/backoff, dead-lettering) and the
`SelfHealer` durable object (error-signature normalization, ordered resolution
strategies, escalation).  JavaScript `Map`s are modelled as insertion-ordered
association lists, ISO timestamps as natural-number milliseconds, and the
randomly generated ids are passed in as parameters.
-/

namespace CollabBoard

/-! ## Insertion-ordered association lists (model of JS `Map`) -/
/-- Lookup of the first entry with the given key (JS `Map.get`). -/
def getA (k : String) : List (String × α) → Option α
  | [] => none
  | (k', v) :: rest => if k' = k then some v else getA k rest

/-- JS `Map.set`: replace the entry in place when the key is present,
append a new entry otherwise. -/
def setA (k : String) (v : α) : List (String × α) → List (String × α)
  | [] => [(k, v)]
  | (k', v') :: rest => if k' = k then (k, v) :: rest else (k', v') :: setA k v rest

/-- Keys of an association list. -/
abbrev keysA (l : List (String × α)) : List String := l.map Prod.fst

/-! ## Agent coordinator: data model (`AgentCoordinator.ts`) -/
inductive AgentStatus
  | idle | busy | error | offline
deriving DecidableEq, Repr

inductive TaskStatus
  | pending | running | completed | failed | retrying | cancelled
deriving DecidableEq, Repr

structure AgentState where
  id : String
  name : String
  type_ : String
  status : AgentStatus
  currentTaskId : Option String
  capabilities : List String
  lastHeartbeat : Nat
  tasksCompleted : Nat
  tasksFailed : Nat
  createdAt : Nat
deriving DecidableEq, Repr

structure AgentTask where
  id : String
  agentId : String
  type_ : String
  description : String
  status : TaskStatus
  input : String
  output : Option String
  error : Option String
  createdAt : Nat
  startedAt : Option Nat
  completedAt : Option Nat
  parentTaskId : Option String
deriving DecidableEq, Repr

structure CoordState where
  agents : List (String × AgentState)
  tasks : List (String × AgentTask)
  taskQueue : List String
deriving DecidableEq, Repr

def CoordState.empty : CoordState := ⟨[], [], []⟩

/-- Capability table of `canAgentHandleTask`. -/
def taskTypeToCapability : String → List String
  | "repo:scrape" => ["scraper", "analyzer"]
  | "repo:analyze" => ["analyzer"]
  | "repo:sync" => ["syncer"]
  | "agent:resolve" => ["healer", "fixer"]
  | "cohesion:check" => ["analyzer", "monitor"]
  | "cohesion:fix" => ["fixer"]
  | "health:check" => ["monitor"]
  | _ => []

def canAgentHandleTask (agent : AgentState) (task : AgentTask) : Bool :=
  let required := taskTypeToCapability task.type_
  required.isEmpty || required.contains agent.type_ ||
    agent.capabilities.any (fun c => required.contains c)

/-- The backlog scan shared by `handleGetNextTask` and `tryAssignTasks`:
front-to-back, skipping missing or non-`pending` entries, stopping at the
first task the agent can handle; returns the chosen id, its task and the
queue with the chosen entry spliced out. -/
def findPending (tasks : List (String × AgentTask)) (agent : AgentState) :
    List String → Option (String × AgentTask × List String)
  | [] => none
  | tid :: rest =>
    match getA tid tasks with
    | none => (findPending tasks agent rest).map (fun r => (r.1, r.2.1, tid :: r.2.2))
    | some t =>
      if t.status = TaskStatus.pending ∧ canAgentHandleTask agent t then
        some (tid, t, rest)
      else
        (findPending tasks agent rest).map (fun r => (r.1, r.2.1, tid :: r.2.2))

/-- One iteration of the outer loop of `tryAssignTasks`, for one snapshot
agent value. -/
def assignOneAg (now : Nat) (s : CoordState) (agent : AgentState) : CoordState :=
  match findPending s.tasks agent s.taskQueue with
  | none => s
  | some (tid, t, q') =>
    { s with
      taskQueue := q'
      tasks := setA tid
        { t with agentId := agent.id, status := TaskStatus.running, startedAt := some now }
        s.tasks
      agents := setA agent.id
        { agent with status := AgentStatus.busy, currentTaskId := some tid }
        s.agents }

/-- Model of `tryAssignTasks`: snapshot the idle agents (in registration order, i.e.
map insertion order) and run the per-agent first-match scan for each. -/
def tryAssignTasks (now : Nat) (s : CoordState) : CoordState :=
  ((s.agents.map Prod.snd).filter (fun a => a.status = AgentStatus.idle)).foldl
    (assignOneAg now) s

/-- Model of `handleRegisterAgent`; the generated id is a parameter. -/
def handleRegisterAgent (s : CoordState) (now : Nat) (agentId name type_ : String)
    (capabilities : List String) : CoordState :=
  { s with
    agents := setA agentId
      { id := agentId, name := name, type_ := type_, status := AgentStatus.idle,
        currentTaskId := none, capabilities := capabilities, lastHeartbeat := now,
        tasksCompleted := 0, tasksFailed := 0, createdAt := now }
      s.agents }

/-- Model of `handleHeartbeat`: update the heartbeat timestamp and, when supplied, the
status; unknown agents leave the state unchanged (404 response). -/
def handleHeartbeat (s : CoordState) (now : Nat) (agentId : String)
    (status : Option AgentStatus) : CoordState :=
  match getA agentId s.agents with
  | none => s
  | some agent =>
    let agent :=
      { agent with
        lastHeartbeat := now
        status := match status with
          | some st => st
          | none => agent.status }
    { s with agents := setA agentId agent s.agents }

/-- The mutation part of `handleSubmitTask`, before the assignment pass. -/
def submitCore (s : CoordState) (now : Nat) (taskId type_ description input : String)
    (priority : String) (parentTaskId : Option String) : CoordState :=
  let task : AgentTask :=
    { id := taskId, agentId := "", type_ := type_, description := description,
      status := TaskStatus.pending, input := input, output := none, error := none,
      createdAt := now, startedAt := none, completedAt := none,
      parentTaskId := parentTaskId }
  let queue :=
    if priority = "critical" ∨ priority = "high" then taskId :: s.taskQueue
    else s.taskQueue ++ [taskId]
  { s with tasks := setA taskId task s.tasks, taskQueue := queue }

/-- Model of `handleSubmitTask`: create the pending task, enqueue it by priority, then
try to assign immediately. -/
def handleSubmitTask (s : CoordState) (now : Nat) (taskId type_ description input : String)
    (priority : String) (parentTaskId : Option String) : CoordState :=
  tryAssignTasks now (submitCore s now taskId type_ description input priority parentTaskId)

/-- Model of `handleGetNextTask`: returns the assigned task id (if any) and the new
state. -/
def handleGetNextTask (s : CoordState) (now : Nat) (agentId : String) :
    Option String × CoordState :=
  match getA agentId s.agents with
  | none => (none, s)
  | some agent =>
    if agent.status ≠ AgentStatus.idle then (none, s)
    else
      match findPending s.tasks agent s.taskQueue with
      | none => (none, s)
      | some (tid, t, q') =>
        (some tid,
          { s with
            taskQueue := q'
            tasks := setA tid
              { t with
                agentId := agentId
                status := TaskStatus.running
                startedAt := some now }
              s.tasks
            agents := setA agentId
              { agent with status := AgentStatus.busy, currentTaskId := some tid }
              s.agents })

/-- The mutation part of `handleCompleteTask`, before the assignment pass.
No check that the task is running, assigned to the caller, or that the agent
is busy. -/
def completeCore (s : CoordState) (now : Nat) (taskId agentId output : String) : CoordState :=
  match getA taskId s.tasks, getA agentId s.agents with
  | some task, some agent =>
    { s with
      tasks := setA taskId
        { task with
          status := TaskStatus.completed
          output := some output
          completedAt := some now }
        s.tasks
      agents := setA agentId
        { agent with
          status := AgentStatus.idle
          currentTaskId := none
          tasksCompleted := agent.tasksCompleted + 1 }
        s.agents }
  | _, _ => s

/-- Model of `handleCompleteTask`: the completion mutations followed by a fresh
assignment pass. -/
def handleCompleteTask (s : CoordState) (now : Nat) (taskId agentId output : String) :
    CoordState :=
  match getA taskId s.tasks, getA agentId s.agents with
  | some _, some _ => tryAssignTasks now (completeCore s now taskId agentId output)
  | _, _ => s

/-- Model of `handleFailTask`.  Note: no assignment pass is triggered here. -/
def handleFailTask (s : CoordState) (now : Nat) (taskId agentId errMsg : String)
    (shouldRetry : Bool) : CoordState :=
  match getA taskId s.tasks, getA agentId s.agents with
  | some task, some agent =>
    let agent :=
      { agent with
        status := AgentStatus.idle
        currentTaskId := none
        tasksFailed := agent.tasksFailed + 1 }
    if shouldRetry then
      { s with
        tasks := setA taskId
          { task with status := TaskStatus.retrying, agentId := "" } s.tasks
        agents := setA agentId agent s.agents
        taskQueue := taskId :: s.taskQueue }
    else
      { s with
        tasks := setA taskId
          { task with
            status := TaskStatus.failed
            error := some errMsg
            completedAt := some now }
          s.tasks
        agents := setA agentId agent s.agents }
  | _, _ => s

/-- One iteration of the stale-agent loop of `alarm`, for one snapshot entry.
A stale non-offline agent is marked `offline`; a `running` current task is
reset to `pending`, unassigned and pushed to the backlog front — the agent's
`currentTaskId` is not cleared. -/
def alarmStep (now : Nat) (s : CoordState) (p : String × AgentState) : CoordState :=
  if p.2.lastHeartbeat < now - 5 * 60 * 1000 ∧ p.2.status ≠ AgentStatus.offline then
    let s' := { s with agents := setA p.1 { p.2 with status := AgentStatus.offline } s.agents }
    match p.2.currentTaskId with
    | none => s'
    | some tid =>
      match getA tid s'.tasks with
      | none => s'
      | some t =>
        if t.status = TaskStatus.running then
          { s' with
            tasks := setA tid { t with status := TaskStatus.pending, agentId := "" } s'.tasks
            taskQueue := tid :: s'.taskQueue }
        else s'
  else s

/-- The cleanup condition of `alarm`: terminal status with a completion
timestamp older than 24 hours. -/
def taskExpired (now : Nat) (q : String × AgentTask) : Bool :=
  (decide (q.2.status = TaskStatus.completed) || decide (q.2.status = TaskStatus.failed)) &&
  (match q.2.completedAt with
   | some c => decide (c < now - 24 * 60 * 60 * 1000)
   | none => false)

/-- The `alarm` maintenance sweep: mark stale agents offline (re-queueing their
running tasks), then purge completed/failed tasks older than 24 hours. -/
def coordAlarm (now : Nat) (s : CoordState) : CoordState :=
  let s' := s.agents.foldl (alarmStep now) s
  { s' with tasks := s'.tasks.filter (fun q => !taskExpired now q) }

/-! ## Job queue: data model (`JobQueue` class) -/
inductive JobPriority
  | low | normal | high | critical
deriving DecidableEq, Repr

inductive JobStatus
  | pending | processing | completed | failed | dead
deriving DecidableEq, Repr

/-- A queued job.  The floating-point `avgProcessingTime` statistic is the
only part of the queue state left unmodelled (no claim touches it). -/
structure QueuedJob where
  id : String
  type_ : String
  payload : String
  priority : JobPriority
  status : JobStatus
  retryCount : Nat
  maxRetries : Nat
  createdAt : Nat
  scheduledFor : Option Nat
  startedAt : Option Nat
  completedAt : Option Nat
  error : Option String
  result : Option String
deriving DecidableEq, Repr

structure QueueStats where
  pending : Int
  processing : Int
  completed : Int
  failed : Int
  dead : Int
  totalProcessed : Int
deriving DecidableEq, Repr

/-- The four priority lanes of `priorityQueues`. -/
structure Lanes where
  critical : List String
  high : List String
  normal : List String
  low : List String
deriving DecidableEq, Repr

def Lanes.get (l : Lanes) : JobPriority → List String
  | JobPriority.critical => l.critical
  | JobPriority.high => l.high
  | JobPriority.normal => l.normal
  | JobPriority.low => l.low

def Lanes.set (l : Lanes) : JobPriority → List String → Lanes
  | JobPriority.critical, q => { l with critical := q }
  | JobPriority.high, q => { l with high := q }
  | JobPriority.normal, q => { l with normal := q }
  | JobPriority.low, q => { l with low := q }

structure QueueState where
  jobs : List (String × QueuedJob)
  lanes : Lanes
  stats : QueueStats
deriving DecidableEq, Repr

def QueueState.empty : QueueState :=
  ⟨[], ⟨[], [], [], []⟩, ⟨0, 0, 0, 0, 0, 0⟩⟩

/-- Model of `handleEnqueue`; the generated job id is a parameter.  `maxRetries`
defaults to 3, priority to `normal` (already resolved by the caller here). -/
def handleEnqueue (s : QueueState) (now : Nat) (jobId type_ payload : String)
    (priority : JobPriority) (maxRetries : Option Nat) : QueueState :=
  let job : QueuedJob :=
    { id := jobId, type_ := type_, payload := payload, priority := priority,
      status := JobStatus.pending, retryCount := 0,
      maxRetries := maxRetries.getD 3, createdAt := now, scheduledFor := none,
      startedAt := none, completedAt := none, error := none, result := none }
  { s with
    jobs := setA jobId job s.jobs
    lanes := s.lanes.set priority (s.lanes.get priority ++ [jobId])
    stats := { s.stats with pending := s.stats.pending + 1 } }

/-- Dequeue eligibility: `pending`, `scheduledFor` (if set) not in the
future, and passing the optional type filter. -/
def jobEligible (now : Nat) (types : Option (List String)) (job : QueuedJob) : Bool :=
  decide (job.status = JobStatus.pending) &&
  (match job.scheduledFor with
   | some t => decide (t ≤ now)
   | none => true) &&
  (match types with
   | some ts => ts.contains job.type_
   | none => true)

/-- The inner loop of `handleDequeue` over one lane: front-to-back, skipping
missing and ineligible entries, splicing out the first eligible one. -/
def scanLane (jobs : List (String × QueuedJob)) (now : Nat)
    (types : Option (List String)) : List String → Option (String × QueuedJob × List String)
  | [] => none
  | jid :: rest =>
    match getA jid jobs with
    | none => (scanLane jobs now types rest).map (fun r => (r.1, r.2.1, jid :: r.2.2))
    | some job =>
      if jobEligible now types job then some (jid, job, rest)
      else (scanLane jobs now types rest).map (fun r => (r.1, r.2.1, jid :: r.2.2))

/-- Lane scan order of `handleDequeue`. -/
def priorityOrder : List JobPriority :=
  [JobPriority.critical, JobPriority.high, JobPriority.normal, JobPriority.low]

def dequeueScan (s : QueueState) (now : Nat) (types : Option (List String)) :
    List JobPriority → Option (JobPriority × String × QueuedJob × List String)
  | [] => none
  | p :: ps =>
    match scanLane s.jobs now types (s.lanes.get p) with
    | some r => some (p, r)
    | none => dequeueScan s now types ps

/-- Model of `handleDequeue`: returns the dequeued job id (if any) and the new state. -/
def handleDequeue (s : QueueState) (now : Nat) (types : Option (List String)) :
    Option String × QueueState :=
  match dequeueScan s now types priorityOrder with
  | none => (none, s)
  | some (p, jid, job, q') =>
    (some jid,
      { s with
        lanes := s.lanes.set p q'
        jobs := setA jid
          { job with
            status := JobStatus.processing
            startedAt := some now }
          s.jobs
        stats := { s.stats with
          pending := s.stats.pending - 1
          processing := s.stats.processing + 1 } })

/-- Model of `handleComplete` (average-processing-time update omitted, see above). -/
def handleComplete (s : QueueState) (now : Nat) (jobId : String)
    (result : Option String) : QueueState :=
  match getA jobId s.jobs with
  | none => s
  | some job =>
    { s with
      jobs := setA jobId
        { job with
          status := JobStatus.completed
          completedAt := some now
          result := result }
        s.jobs
      stats := { s.stats with
        processing := s.stats.processing - 1
        completed := s.stats.completed + 1
        totalProcessed := s.stats.totalProcessed + 1 } }

/-- Model of `handleFail`: retry exactly when `shouldRetry` is not explicitly `false`
and `retryCount < maxRetries`; backoff is `2 ^ retryCount` seconds from the
pre-increment count, re-queueing at the lane front; otherwise dead-letter. -/
def handleFail (s : QueueState) (now : Nat) (jobId errMsg : String)
    (shouldRetry : Option Bool) : QueueState :=
  match getA jobId s.jobs with
  | none => s
  | some job =>
    let job := { job with error := some errMsg }
    let stats := { s.stats with processing := s.stats.processing - 1 }
    if shouldRetry ≠ some false ∧ job.retryCount < job.maxRetries then
      let backoffMs := 2 ^ job.retryCount * 1000
      { s with
        jobs := setA jobId
          { job with
            retryCount := job.retryCount + 1
            status := JobStatus.pending
            scheduledFor := some (now + backoffMs) }
          s.jobs
        lanes := s.lanes.set job.priority (jobId :: s.lanes.get job.priority)
        stats := { stats with pending := stats.pending + 1 } }
    else
      { s with
        jobs := setA jobId
          { job with
            status := JobStatus.dead
            completedAt := some now }
          s.jobs
        stats := { stats with dead := stats.dead + 1 } }

/-! ## Self-healer: error-signature normalization (`SelfHealer.extractErrorPattern`)

The four global regex replacements are modelled as left-to-right transducers
over character lists, in the order the source applies them:
UUIDs → `<UUID>`, digit runs → `<N>`, URLs → `<URL>`, quoted strings →
`"<STRING>"`, then truncation to 200 characters. -/
/-- Model of `[0-9a-f]` with the case-insensitive flag. -/
def isHexDigit (c : Char) : Bool :=
  c.isDigit || ('a' ≤ c && c ≤ 'f') || ('A' ≤ c && c ≤ 'F')

/-- Consume exactly `n` hex digits. -/
def takeHexN : Nat → List Char → Option (List Char)
  | 0, l => some l
  | _ + 1, [] => none
  | n + 1, c :: l => if isHexDigit c then takeHexN n l else none

def takeDash : List Char → Option (List Char)
  | [] => none
  | c :: l => if c = '-' then some l else none

/-- One attempted match of the UUID regex (8-4-4-4-12 hex groups) at the
current position. -/
def matchUUID (l : List Char) : Option (List Char) :=
  (takeHexN 8 l).bind fun l =>
  (takeDash l).bind fun l =>
  (takeHexN 4 l).bind fun l =>
  (takeDash l).bind fun l =>
  (takeHexN 4 l).bind fun l =>
  (takeDash l).bind fun l =>
  (takeHexN 4 l).bind fun l =>
  (takeDash l).bind fun l =>
  takeHexN 12 l

/-- Model of `.replace(uuidRegex, "<UUID>")` as a left-to-right scan.  The fuel
argument (always instantiated with the list length, which bounds the number
of steps) keeps the recursion structural, so concrete inputs evaluate by
kernel reduction. -/
def uuidReplaceF : Nat → List Char → List Char
  | 0, l => l
  | _ + 1, [] => []
  | fuel + 1, c :: rest =>
    match matchUUID (c :: rest) with
    | some rem => ['<', 'U', 'U', 'I', 'D', '>'] ++ uuidReplaceF fuel rem
    | none => c :: uuidReplaceF fuel rest

def uuidReplace (l : List Char) : List Char := uuidReplaceF l.length l

/-- Model of `.replace(digitsRegex, "<N>")`: a maximal digit run becomes `<N>`. -/
def numReplaceF : Nat → List Char → List Char
  | 0, l => l
  | _ + 1, [] => []
  | fuel + 1, c :: rest =>
    if c.isDigit then ['<', 'N', '>'] ++ numReplaceF fuel (rest.dropWhile Char.isDigit)
    else c :: numReplaceF fuel rest

def numReplace (l : List Char) : List Char := numReplaceF l.length l

def dropPref : List Char → List Char → Option (List Char)
  | [], l => some l
  | _ :: _, [] => none
  | p :: ps, c :: cs => if c = p then dropPref ps cs else none

/-- One attempted match of `https?:\/\/[^\s]+` at the current position: the
optional `s` branch is tried first (greedy), and at least one non-whitespace
character must follow the slashes. -/
def matchURL (l : List Char) : Option (List Char) :=
  match dropPref ['h', 't', 't', 'p', 's', ':', '/', '/'] l with
  | some (c :: rest) =>
    if !c.isWhitespace then some (rest.dropWhile (fun d => !d.isWhitespace))
    else none
  | some [] => none
  | none =>
    match dropPref ['h', 't', 't', 'p', ':', '/', '/'] l with
    | some (c :: rest) =>
      if !c.isWhitespace then some (rest.dropWhile (fun d => !d.isWhitespace))
      else none
    | _ => none

/-- Model of `.replace(urlRegex, "<URL>")` as a left-to-right scan. -/
def urlReplaceF : Nat → List Char → List Char
  | 0, l => l
  | _ + 1, [] => []
  | fuel + 1, c :: rest =>
    match matchURL (c :: rest) with
    | some rem => ['<', 'U', 'R', 'L', '>'] ++ urlReplaceF fuel rem
    | none => c :: urlReplaceF fuel rest

def urlReplace (l : List Char) : List Char := urlReplaceF l.length l

/-- Remainder after the next `"` character, if any. -/
def findQuote : List Char → Option (List Char)
  | [] => none
  | c :: rest => if c = '"' then some rest else findQuote rest

/-- Model of `.replace(quotedRegex, "\"<STRING>\"")`: a quote with a later closing
quote becomes the literal replacement; a quote with no closing partner does
not match. -/
def strReplaceF : Nat → List Char → List Char
  | 0, l => l
  | _ + 1, [] => []
  | fuel + 1, c :: rest =>
    if c = '"' then
      match findQuote rest with
      | some after =>
        ['"', '<', 'S', 'T', 'R', 'I', 'N', 'G', '>', '"'] ++ strReplaceF fuel after
      | none => c :: strReplaceF fuel rest
    else c :: strReplaceF fuel rest

def strReplace (l : List Char) : List Char := strReplaceF l.length l

/-- Model of `SelfHealer.extractErrorPattern`: the four replacements then `slice(0, 200)`. -/
def extractErrorPattern (e : String) : String :=
  String.mk ((strReplace (urlReplace (numReplace (uuidReplace e.data)))).take 200)

/-! ## Self-healer: strategies, severity, report pipeline -/
/-- Model of `haystack.includes(needle)` on character lists. -/
def hasSubstr (pat : List Char) : List Char → Bool
  | [] => pat.isEmpty
  | c :: rest => pat.isPrefixOf (c :: rest) || hasSubstr pat rest

/-- Model of `error.toLowerCase().includes(p.toLowerCase())`. -/
def lcIncludes (e p : String) : Bool :=
  hasSubstr (p.data.map Char.toLower) (e.data.map Char.toLower)

inductive Severity
  | warning | error | critical
deriving DecidableEq, Repr

/-- The issue context of a report; `repeatCount` models the only metadata
field the core logic reads (`metadata?.repeatCount`). -/
structure IssueContext where
  type_ : String
  error : String
  taskId : Option String
  jobId : Option String
  timestamp : Nat
  repeatCount : Option Nat
deriving DecidableEq, Repr

/-- Model of `SelfHealer.determineSeverity`. -/
def determineSeverity (issue : IssueContext) : Severity :=
  if ["crash", "fatal", "unrecoverable", "data loss"].any
      (fun p => lcIncludes issue.error p) then
    Severity.critical
  else if ["failed", "error", "exception"].any
      (fun p => lcIncludes issue.error p) then
    Severity.error
  else Severity.warning

inductive StrategyName
  | retryTransient | refreshAuth | resourceCleanup | circuitBreaker
  | resyncRepos | restartAgent
deriving DecidableEq, Repr

def transientPatterns : List String :=
  ["ECONNRESET", "ETIMEDOUT", "ENOTFOUND", "rate limit", "429", "503", "504",
   "network", "timeout"]

def authPatterns : List String :=
  ["401", "403", "unauthorized", "forbidden", "token expired"]

def resourcePatterns : List String :=
  ["memory", "storage", "quota", "limit exceeded"]

/-- The `canResolve` predicate of each strategy. -/
def canResolve : StrategyName → IssueContext → Bool
  | StrategyName.retryTransient, i =>
    transientPatterns.any (fun p => lcIncludes i.error p)
  | StrategyName.refreshAuth, i =>
    authPatterns.any (fun p => lcIncludes i.error p)
  | StrategyName.resourceCleanup, i =>
    resourcePatterns.any (fun p => lcIncludes i.error p)
  | StrategyName.circuitBreaker, i =>
    match i.repeatCount with
    | some n => decide (3 ≤ n)
    | none => false
  | StrategyName.resyncRepos, i =>
    hasSubstr "sync".data i.type_.data || hasSubstr "cohesion".data i.type_.data
  | StrategyName.restartAgent, i =>
    hasSubstr "agent".data i.type_.data &&
      (hasSubstr "stuck".data i.error.data || hasSubstr "unresponsive".data i.error.data ||
       hasSubstr "timeout".data i.error.data)

/-- The fixed strategy order of `initializeStrategies`. -/
def strategyOrder : List StrategyName :=
  [StrategyName.retryTransient, StrategyName.refreshAuth,
   StrategyName.resourceCleanup, StrategyName.circuitBreaker,
   StrategyName.resyncRepos, StrategyName.restartAgent]

/-- The `action` string of each strategy's (always-successful) resolution. -/
def resolveAction : StrategyName → String
  | StrategyName.retryTransient => "Scheduled retry"
  | StrategyName.refreshAuth => "Cleared auth cache"
  | StrategyName.resourceCleanup => "Triggered cleanup"
  | StrategyName.circuitBreaker => "Circuit breaker activated"
  | StrategyName.resyncRepos => "Triggered full repo sync"
  | StrategyName.restartAgent => "Reset agent status"

/-- Model of `attemptAutoResolution`: the first strategy whose predicate matches; in
the model every matching strategy's action succeeds, as each `resolve`
returns `success: true` when its external calls do not throw. -/
def attemptAutoResolution (issue : IssueContext) : Option StrategyName :=
  strategyOrder.find? (fun st => canResolve st issue)

structure ErrorPattern where
  pattern : String
  count : Nat
  lastSeen : Nat
  resolution : Option String
  autoResolved : Nat
deriving DecidableEq, Repr

structure Escalation where
  id : String
  issue : String
  severity : Severity
  attempts : Nat
  createdAt : Nat
  resolvedAt : Option Nat
deriving DecidableEq, Repr

/-- The circuit-breaker flag written to `CONFIG_STORE` (the external KV store
is modelled as part of the healer state). -/
structure BreakerEntry where
  activatedAt : Nat
  reason : String
  cooldownUntil : Nat
deriving DecidableEq, Repr

structure HealerState where
  errorPatterns : List (String × ErrorPattern)
  escalations : List Escalation
  totalErrors : Nat
  autoResolved : Nat
  escalated : Nat
  configStore : List (String × BreakerEntry)
deriving DecidableEq, Repr

def HealerState.empty : HealerState := ⟨[], [], 0, 0, 0, []⟩

/-- The state effect of a strategy's `resolve`: only the circuit breaker
writes modelled state (a breaker flag with a 5-minute cooldown); the other
strategies only call external collaborators. -/
def applyResolve (now : Nat) (issue : IssueContext) (s : HealerState) :
    StrategyName → HealerState
  | StrategyName.circuitBreaker =>
    { s with
      configStore := setA ("circuit_breaker:" ++ issue.type_)
        { activatedAt := now
          reason := issue.error
          cooldownUntil := now + 5 * 60 * 1000 }
        s.configStore }
  | _ => s

structure ReportResult where
  autoResolved : Bool
  action : String
deriving DecidableEq, Repr

/-- The pattern-tracking step of `handleReportError`: increment an existing
pattern's count (injecting the new count into the issue's metadata as
`repeatCount`) or create a fresh pattern with count 1. -/
def trackPattern (s : HealerState) (now : Nat) (issue : IssueContext) :
    HealerState × IssueContext :=
  match getA (extractErrorPattern issue.error) s.errorPatterns with
  | some p =>
    ({ s with
        errorPatterns := setA (extractErrorPattern issue.error)
          { p with count := p.count + 1, lastSeen := now } s.errorPatterns },
     { issue with repeatCount := some (p.count + 1) })
  | none =>
    ({ s with
        errorPatterns := setA (extractErrorPattern issue.error)
          { pattern := extractErrorPattern issue.error, count := 1, lastSeen := now, resolution := none, autoResolved := 0 }
          s.errorPatterns },
     issue)

/-- After a successful resolution, stamp the pattern with the action taken
and bump its auto-resolved counter. -/
def recordResolution (s : HealerState) (patternKey : String) (st : StrategyName) :
    HealerState :=
  match getA patternKey s.errorPatterns with
  | some p =>
    { s with
      errorPatterns := setA patternKey
        { p with autoResolved := p.autoResolved + 1, resolution := some (resolveAction st) }
        s.errorPatterns }
  | none => s

/-- Model of `handleReportError`: count the normalized pattern (injecting the new
count as `repeatCount` when the pattern already existed), attempt
auto-resolution, and on failure append exactly one escalation; the generated
escalation id is a parameter. -/
def handleReportError (s : HealerState) (now : Nat) (escId : String)
    (issue : IssueContext) : ReportResult × HealerState :=
  match attemptAutoResolution
      (trackPattern { s with totalErrors := s.totalErrors + 1 } now issue).2 with
  | some st =>
    ({ autoResolved := true, action := resolveAction st },
     recordResolution
       { applyResolve now (trackPattern { s with totalErrors := s.totalErrors + 1 } now issue).2
           (trackPattern { s with totalErrors := s.totalErrors + 1 } now issue).1 st with
         autoResolved := (applyResolve now
           (trackPattern { s with totalErrors := s.totalErrors + 1 } now issue).2
           (trackPattern { s with totalErrors := s.totalErrors + 1 } now issue).1 st).autoResolved + 1 }
       (extractErrorPattern issue.error) st)
  | none =>
    ({ autoResolved := false, action := "No resolution found" },
     { (trackPattern { s with totalErrors := s.totalErrors + 1 } now issue).1 with
       escalations :=
         (trackPattern { s with totalErrors := s.totalErrors + 1 } now issue).1.escalations ++
         [{ id := escId
            issue := (trackPattern { s with totalErrors := s.totalErrors + 1 } now issue).2.error
            severity := determineSeverity
              (trackPattern { s with totalErrors := s.totalErrors + 1 } now issue).2
            attempts := 1
            createdAt := now
            resolvedAt := none }]
       escalated :=
         (trackPattern { s with totalErrors := s.totalErrors + 1 } now issue).1.escalated + 1 })

/-! ## The agent/task consistency invariant (spec §3 / §8) -/
/-- The reference part of the invariant: when `currentTaskId` is set, the
referenced task exists, is `running`, and its `agentId` matches. -/
abbrev refOkB (tasks : List (String × AgentTask)) (a : AgentState) : Bool :=
  match a.currentTaskId with
  | none => true
  | some tid =>
    match getA tid tasks with
    | some t => decide (t.status = TaskStatus.running) && decide (t.agentId = a.id)
    | none => false

/-- The spec's three-way biconditional for one agent: `busy` iff the
current-task reference is set, iff the referenced task is `running` with a
matching agent reference. -/
abbrev InvAgent (tasks : List (String × AgentTask)) (a : AgentState) : Prop :=
  (a.status = AgentStatus.busy ↔ a.currentTaskId ≠ none) ∧ refOkB tasks a = true

/-- Well-formedness of the registry maps (keys are ids, no duplicates) plus
the per-agent invariant. -/
abbrev CoordInv (s : CoordState) : Prop :=
  ((∀ p ∈ s.agents, p.1 = p.2.id) ∧ (keysA s.agents).Nodup ∧ (keysA s.tasks).Nodup) ∧
  ∀ p ∈ s.agents, InvAgent s.tasks p.2

/-! ## Concrete scenario states (built by the operations themselves) -/
def coordOneAgent : CoordState :=
  handleRegisterAgent CoordState.empty 0 "a1" "Agent1" "analyzer" []

def coordBusy : CoordState :=
  handleSubmitTask coordOneAgent 0 "t1" "repo:analyze" "demo" "" "normal" none

def coordBusyPlusIdle : CoordState :=
  handleRegisterAgent coordBusy 0 "a2" "Agent2" "monitor" []

def coordRetryState : CoordState :=
  handleFailTask coordBusy 10 "t1" "a1" "boom" true

def coordTwo : CoordState :=
  handleRegisterAgent coordOneAgent 0 "a2" "Agent2" "analyzer" []

def coordTwoBusy1 : CoordState :=
  handleSubmitTask coordTwo 1 "u1" "repo:analyze" "d" "" "normal" none

def coordTwoBusy2 : CoordState :=
  handleSubmitTask coordTwoBusy1 2 "u2" "repo:analyze" "d" "" "normal" none

def coordPendingBacklog : CoordState :=
  handleSubmitTask coordTwoBusy2 3 "u3" "repo:analyze" "d" "" "normal" none

def coordAfterFail : CoordState :=
  handleFailTask coordPendingBacklog 4 "u1" "a1" "boom" false

/-- The value of agent `a1` in `coordBusy`. -/
def agentA1busy : AgentState :=
  { id := "a1", name := "Agent1", type_ := "analyzer", status := AgentStatus.busy,
    currentTaskId := some "t1", capabilities := [], lastHeartbeat := 0,
    tasksCompleted := 0, tasksFailed := 0, createdAt := 0 }

/-- The value of task `t1` in `coordBusy` (assigned and running). -/
def taskT1running : AgentTask :=
  { id := "t1", agentId := "a1", type_ := "repo:analyze", description := "demo",
    status := TaskStatus.running, input := "", output := none, error := none,
    createdAt := 0, startedAt := some 0, completedAt := none, parentTaskId := none }

/-- An unassigned pending copy of `t1` and an idle copy of `a1`, used as
tiny concrete inputs for the scan lemmas. -/
def taskT1pending : AgentTask :=
  { id := "t1", agentId := "", type_ := "repo:analyze", description := "demo",
    status := TaskStatus.pending, input := "", output := none, error := none,
    createdAt := 0, startedAt := none, completedAt := none, parentTaskId := none }

def agentA1idle : AgentState :=
  { id := "a1", name := "Agent1", type_ := "analyzer", status := AgentStatus.idle,
    currentTaskId := none, capabilities := [], lastHeartbeat := 0,
    tasksCompleted := 0, tasksFailed := 0, createdAt := 0 }

/-- The value of agent `a2` in `coordBusyPlusIdle` (idle monitor, not the
assignee of `t1`). -/
def agentA2idle : AgentState :=
  { id := "a2", name := "Agent2", type_ := "monitor", status := AgentStatus.idle,
    currentTaskId := none, capabilities := [], lastHeartbeat := 0,
    tasksCompleted := 0, tasksFailed := 0, createdAt := 0 }

/-- Scenario: jobs enqueued as (low,A), (critical,B), (normal,C), (high,D). -/
def jq1 : QueueState := handleEnqueue QueueState.empty 0 "A" "t" "" JobPriority.low none

def jq2 : QueueState := handleEnqueue jq1 0 "B" "t" "" JobPriority.critical none

def jq3 : QueueState := handleEnqueue jq2 0 "C" "t" "" JobPriority.normal none

def jq4 : QueueState := handleEnqueue jq3 0 "D" "t" "" JobPriority.high none

def jqd1 : Option String × QueueState := handleDequeue jq4 0 none

def jqd2 : Option String × QueueState := handleDequeue jqd1.2 0 none

def jqd3 : Option String × QueueState := handleDequeue jqd2.2 0 none

def jqd4 : Option String × QueueState := handleDequeue jqd3.2 0 none

/-- Scenario: a normal-priority job with `maxRetries = 3` failing four
times (dequeued before each failure, once its backoff has elapsed). -/
def jf1 : QueueState := handleEnqueue QueueState.empty 0 "J" "t" "" JobPriority.normal (some 3)

def jf2 : QueueState := (handleDequeue jf1 0 none).2

def jf3 : QueueState := handleFail jf2 0 "J" "boom" none

def jf4 : QueueState := (handleDequeue jf3 1000 none).2

def jf5 : QueueState := handleFail jf4 1000 "J" "boom" (some true)

def jf6 : QueueState := (handleDequeue jf5 3000 none).2

def jf7 : QueueState := handleFail jf6 3000 "J" "boom" none

def jf8 : QueueState := (handleDequeue jf7 7000 none).2

def jf9 : QueueState := handleFail jf8 7000 "J" "boom" none

/-- The value of job `J` in `jf4` (just dequeued after its first retry). -/
def jobJ1 : QueuedJob :=
  { id := "J", type_ := "t", payload := "", priority := JobPriority.normal,
    status := JobStatus.processing, retryCount := 1, maxRetries := 3, createdAt := 0,
    scheduledFor := some 1000, startedAt := some 1000, completedAt := none,
    error := some "boom", result := none }

/-- The value of job `J` in `jf8` (dequeued with its retry budget used up). -/
def jobJ3 : QueuedJob :=
  { id := "J", type_ := "t", payload := "", priority := JobPriority.normal,
    status := JobStatus.processing, retryCount := 3, maxRetries := 3, createdAt := 0,
    scheduledFor := some 7000, startedAt := some 7000, completedAt := none,
    error := some "boom", result := none }

/-- The unclassifiable issue of the escalation scenario. -/
def issueDisk : IssueContext :=
  { type_ := "misc", error := "disk is purple", taskId := none, jobId := none,
    timestamp := 0, repeatCount := none }

/-- An unclassifiable recurring error (matches no error-text strategy). -/
def issueWidget : IssueContext :=
  { type_ := "job:x", error := "widget mismatch", taskId := none, jobId := none,
    timestamp := 0, repeatCount := none }

/-- The transient error of the circuit-breaker counterexample. -/
def issueTimeout : IssueContext :=
  { type_ := "job:x", error := "timeout", taskId := none, jobId := none,
    timestamp := 0, repeatCount := none }

def rep1 : ReportResult × HealerState :=
  handleReportError HealerState.empty 0 "e1" issueTimeout

def rep2 : ReportResult × HealerState := handleReportError rep1.2 1 "e2" issueTimeout

def rep3 : ReportResult × HealerState := handleReportError rep2.2 2 "e3" issueTimeout

theorem getA_setA_self (k : String) (v : α) (l : List (String × α)) :
    getA k (setA k v l) = some v := by
  induction l with
  | nil => simp [getA, setA]
  | cons p rest ih =>
    by_cases h : p.1 = k
    · simp [setA, h, getA]
    · simp [setA, h, getA, ih]

theorem setA_cons_self {k : String} (v : α) (p : String × α) (l : List (String × α))
    (hp : p.1 = k) : setA k v (p :: l) = (k, v) :: l := by
  cases p with
  | mk a b =>
    simp at hp
    subst hp
    simp [setA]

theorem setA_cons_ne {k : String} (v : α) (p : String × α) (l : List (String × α))
    (hp : p.1 ≠ k) : setA k v (p :: l) = p :: setA k v l := by
  cases p with
  | mk a b => simp [setA]; intro h; exact absurd h hp

theorem getA_setA_ne (k k' : String) (v : α) (l : List (String × α)) (h : k' ≠ k) :
    getA k (setA k' v l) = getA k l := by
  induction l with
  | nil => simp [getA, setA, h]
  | cons p rest ih =>
    by_cases hp : p.1 = k'
    · have hpk : p.1 ≠ k := by rw [hp]; exact h
      rw [setA_cons_self v p rest hp]
      simp [getA, h, hpk]
    · rw [setA_cons_ne v p rest hp]
      simp [getA, ih]

theorem getA_mem {k : String} {v : α} {l : List (String × α)} (h : getA k l = some v) :
    (k, v) ∈ l := by
  induction l with
  | nil => simp [getA] at h
  | cons p rest ih =>
    cases p with
    | mk a b =>
      by_cases hp : a = k
      · simp [getA, hp] at h
        subst hp; subst h
        exact List.mem_cons_self _ _
      · simp [getA, hp] at h
        exact List.mem_cons_of_mem _ (ih h)

theorem keysA_setA (k : String) (v : α) (l : List (String × α)) :
    keysA (setA k v l) = keysA l ∨ keysA (setA k v l) = keysA l ++ [k] := by
  induction l with
  | nil => right; simp [keysA, setA]
  | cons p rest ih =>
    by_cases hp : p.1 = k
    · left
      rw [setA_cons_self v p rest hp]
      simp only [keysA, List.map_cons, hp]
    · rcases ih with h | h
      · left
        rw [setA_cons_ne v p rest hp]
        simp only [keysA, List.map_cons]
        rw [show (setA k v rest).map Prod.fst = rest.map Prod.fst from h]
      · right
        rw [setA_cons_ne v p rest hp]
        simp only [keysA, List.map_cons]
        rw [show (setA k v rest).map Prod.fst = rest.map Prod.fst ++ [k] from h]
        simp

theorem nodup_keysA_setA (k : String) (v : α) (l : List (String × α))
    (h : (keysA l).Nodup) : (keysA (setA k v l)).Nodup := by
  induction l with
  | nil => simp [keysA, setA]
  | cons p rest ih =>
    simp only [keysA, List.map_cons, List.nodup_cons] at h
    by_cases hp : p.1 = k
    · rw [setA_cons_self v p rest hp]
      simp only [keysA, List.map_cons, List.nodup_cons]
      exact ⟨by rw [← hp]; exact h.1, h.2⟩
    · rw [setA_cons_ne v p rest hp]
      simp only [keysA, List.map_cons, List.nodup_cons]
      refine ⟨?_, ih h.2⟩
      intro hmem
      rcases keysA_setA k v rest with he | he
      · have he' : List.map Prod.fst (setA k v rest) = List.map Prod.fst rest := he
        rw [he'] at hmem
        exact h.1 hmem
      · have he' : List.map Prod.fst (setA k v rest) = List.map Prod.fst rest ++ [k] := he
        rw [he'] at hmem
        rcases List.mem_append.mp hmem with hm | hm
        · exact h.1 hm
        · simp at hm; exact hp hm

theorem mem_setA {p : String × α} {k : String} {v : α} {l : List (String × α)}
    (hnd : (keysA l).Nodup) (h : p ∈ setA k v l) :
    p = (k, v) ∨ (p ∈ l ∧ p.1 ≠ k) := by
  induction l with
  | nil => simp [setA] at h; left; exact h
  | cons q rest ih =>
    simp only [keysA, List.map_cons, List.nodup_cons] at hnd
    by_cases hq : q.1 = k
    · rw [setA_cons_self v q rest hq] at h
      rcases List.mem_cons.mp h with h' | h'
      · left; exact h'
      · right
        refine ⟨List.mem_cons_of_mem _ h', ?_⟩
        intro hpk
        apply hnd.1
        have hm : p.1 ∈ List.map Prod.fst rest := List.mem_map_of_mem Prod.fst h'
        rw [hq, ← hpk]
        exact hm
    · rw [setA_cons_ne v q rest hq] at h
      rcases List.mem_cons.mp h with h' | h'
      · right
        refine ⟨by rw [h']; exact List.mem_cons_self _ _, ?_⟩
        rw [h']; exact hq
      · rcases ih hnd.2 h' with h'' | h''
        · left; exact h''
        · right; exact ⟨List.mem_cons_of_mem _ h''.1, h''.2⟩

theorem mem_getA {k : String} {v : α} {l : List (String × α)}
    (hnd : (keysA l).Nodup) (h : (k, v) ∈ l) : getA k l = some v := by
  induction l with
  | nil => simp at h
  | cons p rest ih =>
    simp only [keysA, List.map_cons, List.nodup_cons] at hnd
    rcases List.mem_cons.mp h with h' | h'
    · rw [← h']; simp [getA]
    · by_cases hp : p.1 = k
      · exfalso
        apply hnd.1
        have hm : (k, v).1 ∈ List.map Prod.fst rest := List.mem_map_of_mem Prod.fst h'
        rw [hp]
        exact hm
      · simp [getA, hp]
        exact ih hnd.2 h'

theorem getA_filter {k : String} {v : α} {l : List (String × α)}
    (q : String × α → Bool) (hnd : (keysA l).Nodup) (h : getA k l = some v)
    (hq : q (k, v) = true) : getA k (l.filter q) = some v := by
  induction l with
  | nil => simp [getA] at h
  | cons p rest ih =>
    simp only [keysA, List.map_cons, List.nodup_cons] at hnd
    cases p with
    | mk a b =>
      by_cases hp : a = k
      · simp [getA, hp] at h
        subst hp; subst h
        simp [List.filter_cons, hq, getA]
      · simp [getA, hp] at h
        by_cases hqp : q (a, b) = true
        · simp [List.filter_cons, hqp, getA, hp]
          exact ih hnd.2 h
        · simp [List.filter_cons, hqp]
          exact ih hnd.2 h

theorem takeHexN_length {n : Nat} {l r : List Char} (h : takeHexN n l = some r) :
    r.length + n = l.length := by
  induction n generalizing l with
  | zero => simp [takeHexN] at h; subst h; simp
  | succ n ih =>
    cases l with
    | nil => simp [takeHexN] at h
    | cons c cs =>
      by_cases hc : isHexDigit c = true
      · simp [takeHexN, hc] at h
        have := ih h
        simp
        omega
      · simp [takeHexN, hc] at h

theorem takeDash_length {l r : List Char} (h : takeDash l = some r) :
    r.length + 1 = l.length := by
  cases l with
  | nil => simp [takeDash] at h
  | cons c cs =>
    by_cases hc : c = '-'
    · simp [takeDash, hc] at h
      subst h
      simp
    · simp [takeDash, hc] at h

theorem matchUUID_length {l r : List Char} (h : matchUUID l = some r) :
    r.length + 36 = l.length := by
  simp only [matchUUID, Option.bind_eq_some] at h
  rcases h with ⟨l1, h1, l2, h2, l3, h3, l4, h4, l5, h5, l6, h6, l7, h7, l8, h8, h9⟩
  have e1 := takeHexN_length h1
  have e2 := takeDash_length h2
  have e3 := takeHexN_length h3
  have e4 := takeDash_length h4
  have e5 := takeHexN_length h5
  have e6 := takeDash_length h6
  have e7 := takeHexN_length h7
  have e8 := takeDash_length h8
  have e9 := takeHexN_length h9
  omega

theorem length_dropWhile_le (p : Char → Bool) (l : List Char) :
    (l.dropWhile p).length ≤ l.length :=
  (List.dropWhile_suffix p).sublist.length_le

theorem uuidReplaceF_fuel {fuel fuel' : Nat} {l : List Char}
    (h : l.length ≤ fuel) (h' : l.length ≤ fuel') :
    uuidReplaceF fuel l = uuidReplaceF fuel' l := by
  induction fuel generalizing fuel' l with
  | zero =>
    have : l = [] := List.length_eq_zero.mp (Nat.le_zero.mp h)
    subst this
    cases fuel' <;> simp [uuidReplaceF]
  | succ fuel ih =>
    cases l with
    | nil => cases fuel' <;> simp [uuidReplaceF]
    | cons c rest =>
      cases fuel' with
      | zero => simp at h'
      | succ fuel' =>
        simp only [uuidReplaceF]
        cases hm : matchUUID (c :: rest) with
        | some rem =>
          have hlen := matchUUID_length hm
          simp only [List.length_cons] at h h' hlen
          show ['<', 'U', 'U', 'I', 'D', '>'] ++ uuidReplaceF fuel rem =
            ['<', 'U', 'U', 'I', 'D', '>'] ++ uuidReplaceF fuel' rem
          rw [@ih fuel' rem (by omega) (by omega)]
        | none =>
          simp only [List.length_cons] at h h'
          show c :: uuidReplaceF fuel rest = c :: uuidReplaceF fuel' rest
          rw [@ih fuel' rest (by omega) (by omega)]

theorem numReplaceF_fuel {fuel fuel' : Nat} {l : List Char}
    (h : l.length ≤ fuel) (h' : l.length ≤ fuel') :
    numReplaceF fuel l = numReplaceF fuel' l := by
  induction fuel generalizing fuel' l with
  | zero =>
    have : l = [] := List.length_eq_zero.mp (Nat.le_zero.mp h)
    subst this
    cases fuel' <;> simp [numReplaceF]
  | succ fuel ih =>
    cases l with
    | nil => cases fuel' <;> simp [numReplaceF]
    | cons c rest =>
      cases fuel' with
      | zero => simp at h'
      | succ fuel' =>
        simp only [numReplaceF]
        have hdw := length_dropWhile_le Char.isDigit rest
        simp only [List.length_cons] at h h'
        by_cases hc : c.isDigit
        · simp only [if_pos hc]
          rw [@ih fuel' (rest.dropWhile Char.isDigit) (by omega) (by omega)]
        · simp only [if_neg hc]
          rw [@ih fuel' rest (by omega) (by omega)]

theorem dropPref_length {p l r : List Char} (h : dropPref p l = some r) :
    r.length + p.length = l.length := by
  induction p generalizing l with
  | nil => simp [dropPref] at h; subst h; simp
  | cons c ps ih =>
    cases l with
    | nil => simp [dropPref] at h
    | cons d ds =>
      by_cases hd : d = c
      · simp [dropPref, hd] at h
        have := ih h
        simp
        omega
      · simp [dropPref, hd] at h

theorem matchURL_length {l r : List Char} (h : matchURL l = some r) :
    r.length < l.length := by
  unfold matchURL at h
  split at h
  next c rest heq =>
    split at h
    · have hd := dropPref_length heq
      simp at hd
      have hw : r = rest.dropWhile (fun d => !d.isWhitespace) := by
        simp at h
        exact h.symm
      have hle := length_dropWhile_le (fun d => !d.isWhitespace) rest
      rw [hw]
      omega
    · simp at h
  next => simp at h
  next =>
    split at h
    next c rest heq =>
      split at h
      · have hd := dropPref_length heq
        simp at hd
        have hw : r = rest.dropWhile (fun d => !d.isWhitespace) := by
          simp at h
          exact h.symm
        have hle := length_dropWhile_le (fun d => !d.isWhitespace) rest
        rw [hw]
        omega
      · simp at h
    next => simp at h

theorem urlReplaceF_fuel {fuel fuel' : Nat} {l : List Char}
    (h : l.length ≤ fuel) (h' : l.length ≤ fuel') :
    urlReplaceF fuel l = urlReplaceF fuel' l := by
  induction fuel generalizing fuel' l with
  | zero =>
    have : l = [] := List.length_eq_zero.mp (Nat.le_zero.mp h)
    subst this
    cases fuel' <;> simp [urlReplaceF]
  | succ fuel ih =>
    cases l with
    | nil => cases fuel' <;> simp [urlReplaceF]
    | cons c rest =>
      cases fuel' with
      | zero => simp at h'
      | succ fuel' =>
        simp only [urlReplaceF]
        cases hm : matchURL (c :: rest) with
        | some rem =>
          have hlen := matchURL_length hm
          simp only [List.length_cons] at h h' hlen
          show ['<', 'U', 'R', 'L', '>'] ++ urlReplaceF fuel rem =
            ['<', 'U', 'R', 'L', '>'] ++ urlReplaceF fuel' rem
          rw [@ih fuel' rem (by omega) (by omega)]
        | none =>
          simp only [List.length_cons] at h h'
          show c :: urlReplaceF fuel rest = c :: urlReplaceF fuel' rest
          rw [@ih fuel' rest (by omega) (by omega)]

theorem findQuote_length {l r : List Char} (h : findQuote l = some r) :
    r.length < l.length := by
  induction l with
  | nil => simp [findQuote] at h
  | cons c rest ih =>
    by_cases hc : c = '"'
    · simp [findQuote, hc] at h
      subst h
      simp
    · simp [findQuote, hc] at h
      have := ih h
      simp
      omega

theorem strReplaceF_fuel {fuel fuel' : Nat} {l : List Char}
    (h : l.length ≤ fuel) (h' : l.length ≤ fuel') :
    strReplaceF fuel l = strReplaceF fuel' l := by
  induction fuel generalizing fuel' l with
  | zero =>
    have : l = [] := List.length_eq_zero.mp (Nat.le_zero.mp h)
    subst this
    cases fuel' <;> simp [strReplaceF]
  | succ fuel ih =>
    cases l with
    | nil => cases fuel' <;> simp [strReplaceF]
    | cons c rest =>
      cases fuel' with
      | zero => simp at h'
      | succ fuel' =>
        simp only [strReplaceF]
        simp only [List.length_cons] at h h'
        by_cases hc : c = '"'
        · simp only [if_pos hc]
          cases hq : findQuote rest with
          | some after =>
            have hlen := findQuote_length hq
            show ['"', '<', 'S', 'T', 'R', 'I', 'N', 'G', '>', '"'] ++ strReplaceF fuel after =
              ['"', '<', 'S', 'T', 'R', 'I', 'N', 'G', '>', '"'] ++ strReplaceF fuel' after
            rw [@ih fuel' after (by omega) (by omega)]
          | none =>
            show c :: strReplaceF fuel rest = c :: strReplaceF fuel' rest
            rw [@ih fuel' rest (by omega) (by omega)]
        · simp only [if_neg hc]
          rw [@ih fuel' rest (by omega) (by omega)]

theorem foldl_preserve_mem {α β : Type} {P : β → Prop} {f : β → α → β} {l : List α} :
    ∀ {b : β}, (∀ b a, a ∈ l → P b → P (f b a)) → P b → P (l.foldl f b) := by
  induction l with
  | nil => intro b _ hb; exact hb
  | cons a l ih =>
    intro b hf hb
    exact ih (fun b' a' ha' hb' => hf b' a' (List.mem_cons_of_mem _ ha') hb')
      (hf b a (List.mem_cons_self _ _) hb)

/-- The scan `findPending` returns the first backlog entry that resolves to a
`pending` task the agent can handle, splicing it out of the queue. -/
theorem findPending_some {tasks : List (String × AgentTask)} {ag : AgentState}
    {q : List String} {tid : String} {t : AgentTask} {q' : List String}
    (h : findPending tasks ag q = some (tid, t, q')) :
    ∃ pre post, q = pre ++ tid :: post ∧ q' = pre ++ post ∧
      getA tid tasks = some t ∧ t.status = TaskStatus.pending ∧
      canAgentHandleTask ag t = true ∧
      ∀ x ∈ pre, ∀ u, getA x tasks = some u →
        ¬(u.status = TaskStatus.pending ∧ canAgentHandleTask ag u = true) := by
  induction q generalizing tid t q' with
  | nil => simp [findPending] at h
  | cons x rest ih =>
    cases hx : getA x tasks with
    | none =>
      simp only [findPending, hx] at h
      rcases Option.map_eq_some'.mp h with ⟨r, hr, hre⟩
      obtain ⟨tid0, t0, q0⟩ := r
      simp at hre
      obtain ⟨h1, h2, h3⟩ := hre
      subst h1; subst h2
      obtain ⟨pre, post, he, he', hget, hst, hcan, hskip⟩ := ih hr
      refine ⟨x :: pre, post, by simp [he], by simp [← h3, he'], hget, hst, hcan, ?_⟩
      intro y hy u hu
      rcases List.mem_cons.mp hy with hy' | hy'
      · subst hy'
        rw [hu] at hx
        exact absurd hx (by simp)
      · exact hskip y hy' u hu
    | some u =>
      simp only [findPending, hx] at h
      by_cases hu : u.status = TaskStatus.pending ∧ canAgentHandleTask ag u = true
      · rw [if_pos hu] at h
        simp at h
        obtain ⟨h1, h2, h3⟩ := h
        subst h1; subst h2; subst h3
        exact ⟨[], rest, by simp, by simp, hx, hu.1, hu.2, by simp⟩
      · rw [if_neg hu] at h
        rcases Option.map_eq_some'.mp h with ⟨r, hr, hre⟩
        obtain ⟨tid0, t0, q0⟩ := r
        simp at hre
        obtain ⟨h1, h2, h3⟩ := hre
        subst h1; subst h2
        obtain ⟨pre, post, he, he', hget, hst, hcan, hskip⟩ := ih hr
        refine ⟨x :: pre, post, by simp [he], by simp [← h3, he'], hget, hst, hcan, ?_⟩
        intro y hy v hv
        rcases List.mem_cons.mp hy with hy' | hy'
        · subst hy'
          rw [hv] at hx
          injection hx with hx'
          subst hx'
          exact hu
        · exact hskip y hy' v hv

/-- When the scan finds nothing, no backlog entry resolves to an assignable
pending task. -/
theorem findPending_none {tasks : List (String × AgentTask)} {ag : AgentState}
    {q : List String} (h : findPending tasks ag q = none) :
    ∀ x ∈ q, ∀ u, getA x tasks = some u →
      ¬(u.status = TaskStatus.pending ∧ canAgentHandleTask ag u = true) := by
  induction q with
  | nil => simp
  | cons x rest ih =>
    intro y hy u hu
    cases hx : getA x tasks with
    | none =>
      simp only [findPending, hx] at h
      rcases List.mem_cons.mp hy with hy' | hy'
      · subst hy'
        rw [hu] at hx
        exact absurd hx (by simp)
      · exact ih (by simpa using h) y hy' u hu
    | some v =>
      simp only [findPending, hx] at h
      by_cases hv : v.status = TaskStatus.pending ∧ canAgentHandleTask ag v = true
      · rw [if_pos hv] at h
        simp at h
      · rw [if_neg hv] at h
        rcases List.mem_cons.mp hy with hy' | hy'
        · subst hy'
          rw [hu] at hx
          injection hx with hx'
          subst hx'
          exact hv
        · exact ih (by simpa using h) y hy' u hu

/-- Updating a task the agent does not reference leaves its reference
invariant intact. -/
theorem refOkB_setA_of_ne {tasks : List (String × AgentTask)} {a : AgentState}
    {tid : String} {t' : AgentTask} (hInv : refOkB tasks a = true)
    (hne : a.currentTaskId ≠ some tid) : refOkB (setA tid t' tasks) a = true := by
  unfold refOkB at hInv ⊢
  rw [hInv.symm]
  cases hc : a.currentTaskId with
  | none => rfl
  | some tid2 =>
    have htt : tid ≠ tid2 := by
      intro he
      exact hne (by rw [hc, he])
    show (match getA tid2 (setA tid t' tasks) with
      | some t => decide (t.status = TaskStatus.running) && decide (t.agentId = a.id)
      | none => false) =
      (match getA tid2 tasks with
      | some t => decide (t.status = TaskStatus.running) && decide (t.agentId = a.id)
      | none => false)
    rw [getA_setA_ne tid2 tid t' tasks htt]

/-- The state update shared by `handleGetNextTask` and `tryAssignTasks`
preserves the invariant: both sides of the assignment are set together, and
the task was `pending`, so no other busy agent referenced it. -/
theorem CoordInv_assignUpdate {s : CoordState} {ag : AgentState} {tid : String}
    {t : AgentTask} {q' : List String} (hInv : CoordInv s) (now : Nat)
    (hf : findPending s.tasks ag s.taskQueue = some (tid, t, q')) :
    CoordInv
      { s with
        taskQueue := q'
        tasks := setA tid
          { t with agentId := ag.id, status := TaskStatus.running, startedAt := some now }
          s.tasks
        agents := setA ag.id
          { ag with status := AgentStatus.busy, currentTaskId := some tid }
          s.agents } := by
  obtain ⟨⟨hkid, hnda, hndt⟩, hag⟩ := hInv
  obtain ⟨pre, post, hq, hq', hget, hpend, hcan, hskip⟩ := findPending_some hf
  constructor
  · refine ⟨?_, nodup_keysA_setA _ _ _ hnda, nodup_keysA_setA _ _ _ hndt⟩
    intro p hp
    rcases mem_setA hnda hp with hp' | ⟨hp', _⟩
    · rw [hp']
    · exact hkid p hp'
  · intro p hp
    rcases mem_setA hnda hp with hp' | ⟨hp', hpk⟩
    · rw [hp']
      refine ⟨by simp, ?_⟩
      show refOkB _ _ = true
      unfold refOkB
      simp [getA_setA_self]
    · have hIA := hag p hp'
      refine ⟨hIA.1, ?_⟩
      apply refOkB_setA_of_ne hIA.2
      intro hcur
      have h2 : (match getA tid s.tasks with
          | some t0 => decide (t0.status = TaskStatus.running) && decide (t0.agentId = p.2.id)
          | none => false) = true := by
        have h0 := hIA.2
        unfold refOkB at h0
        rw [hcur] at h0
        exact h0
      rw [hget] at h2
      simp at h2
      rw [h2.1] at hpend
      exact absurd hpend (by simp)

/-- One outer-loop iteration of `tryAssignTasks` preserves the invariant,
for an arbitrary snapshot agent value. -/
theorem CoordInv_assignOneAg (now : Nat) (ag : AgentState) {s : CoordState}
    (h : CoordInv s) : CoordInv (assignOneAg now s ag) := by
  unfold assignOneAg
  cases hf : findPending s.tasks ag s.taskQueue with
  | none => exact h
  | some r =>
    obtain ⟨tid, t, q'⟩ := r
    exact CoordInv_assignUpdate h now hf

/-- The greedy assignment pass preserves the invariant. -/
theorem CoordInv_tryAssign (now : Nat) {s : CoordState} (h : CoordInv s) :
    CoordInv (tryAssignTasks now s) :=
  foldl_preserve_mem (fun b a _ hb => CoordInv_assignOneAg now a hb) h

/-- From the invariant, an agent whose `currentTaskId` is set is the
registered owner of a `running` task. -/
theorem inv_assignee_facts {s : CoordState} {aid : String} {a : AgentState}
    {tid : String} (hInv : CoordInv s) (ha : getA aid s.agents = some a)
    (hcur : a.currentTaskId = some tid) :
    aid = a.id ∧ ∃ t0, getA tid s.tasks = some t0 ∧
      t0.status = TaskStatus.running ∧ t0.agentId = a.id := by
  obtain ⟨⟨hkid, hnda, hndt⟩, hag⟩ := hInv
  have hmem := getA_mem ha
  have hid := hkid (aid, a) hmem
  have hIA := hag (aid, a) hmem
  have h2 : (match getA tid s.tasks with
      | some t0 => decide (t0.status = TaskStatus.running) && decide (t0.agentId = a.id)
      | none => false) = true := by
    have h0 := hIA.2
    unfold refOkB at h0
    rw [hcur] at h0
    exact h0
  cases hg : getA tid s.tasks with
  | none => rw [hg] at h2; simp at h2
  | some t0 =>
    rw [hg] at h2
    simp at h2
    exact ⟨hid, t0, rfl, h2.1, h2.2⟩

theorem CoordInv_register (s : CoordState) (now : Nat) (aid name ty : String)
    (caps : List String) (h : CoordInv s) :
    CoordInv (handleRegisterAgent s now aid name ty caps) := by
  obtain ⟨⟨hkid, hnda, hndt⟩, hag⟩ := h
  unfold handleRegisterAgent
  constructor
  · refine ⟨?_, nodup_keysA_setA _ _ _ hnda, hndt⟩
    intro p hp
    rcases mem_setA hnda hp with hp' | ⟨hp', _⟩
    · rw [hp']
    · exact hkid p hp'
  · intro p hp
    rcases mem_setA hnda hp with hp' | ⟨hp', _⟩
    · rw [hp']
      exact ⟨by simp, by simp [refOkB]⟩
    · exact hag p hp'

theorem CoordInv_heartbeat_none (s : CoordState) (now : Nat) (aid : String)
    (h : CoordInv s) : CoordInv (handleHeartbeat s now aid none) := by
  unfold handleHeartbeat
  cases ha : getA aid s.agents with
  | none => exact h
  | some a =>
    obtain ⟨⟨hkid, hnda, hndt⟩, hag⟩ := h
    have hmem := getA_mem ha
    have hid := hkid (aid, a) hmem
    have hIA := hag (aid, a) hmem
    constructor
    · refine ⟨?_, nodup_keysA_setA _ _ _ hnda, hndt⟩
      intro p hp
      rcases mem_setA hnda hp with hp' | ⟨hp', _⟩
      · rw [hp']; exact hid
      · exact hkid p hp'
    · intro p hp
      rcases mem_setA hnda hp with hp' | ⟨hp', _⟩
      · rw [hp']
        exact ⟨hIA.1, hIA.2⟩
      · exact hag p hp'

theorem CoordInv_submitCore (s : CoordState) (now : Nat)
    (tid ty d i pr : String) (par : Option String) (h : CoordInv s)
    (hfresh : getA tid s.tasks = none) :
    CoordInv (submitCore s now tid ty d i pr par) := by
  obtain ⟨⟨hkid, hnda, hndt⟩, hag⟩ := h
  unfold submitCore
  constructor
  · exact ⟨hkid, hnda, nodup_keysA_setA _ _ _ hndt⟩
  · intro p hp
    have hIA := hag p hp
    refine ⟨hIA.1, refOkB_setA_of_ne hIA.2 ?_⟩
    intro hcurr
    have h2 : (match getA tid s.tasks with
        | some t0 => decide (t0.status = TaskStatus.running) && decide (t0.agentId = p.2.id)
        | none => false) = true := by
      have h0 := hIA.2
      unfold refOkB at h0
      rw [hcurr] at h0
      exact h0
    rw [hfresh] at h2
    simp at h2

theorem CoordInv_submit (s : CoordState) (now : Nat)
    (tid ty d i pr : String) (par : Option String) (h : CoordInv s)
    (hfresh : getA tid s.tasks = none) :
    CoordInv (handleSubmitTask s now tid ty d i pr par) :=
  CoordInv_tryAssign now (CoordInv_submitCore s now tid ty d i pr par h hfresh)

theorem CoordInv_getNext (s : CoordState) (now : Nat) (aid : String)
    (h : CoordInv s) : CoordInv (handleGetNextTask s now aid).2 := by
  unfold handleGetNextTask
  split
  · exact h
  · rename_i ag ha
    split
    · exact h
    · split
      · exact h
      · rename_i hst hmatch tid t q' hf
        have hid : aid = ag.id := (h.1.1 (aid, ag) (getA_mem ha))
        subst hid
        exact CoordInv_assignUpdate h now hf

theorem CoordInv_completeCore (s : CoordState) (now : Nat) (tid aid out : String)
    {a : AgentState} (hInv : CoordInv s) (ha : getA aid s.agents = some a)
    (hcur : a.currentTaskId = some tid) :
    CoordInv (completeCore s now tid aid out) := by
  obtain ⟨hid, t0, hget, hrun, hown⟩ := inv_assignee_facts hInv ha hcur
  obtain ⟨⟨hkid, hnda, hndt⟩, hag⟩ := hInv
  unfold completeCore
  rw [hget, ha]
  constructor
  · refine ⟨?_, nodup_keysA_setA _ _ _ hnda, nodup_keysA_setA _ _ _ hndt⟩
    intro p hp
    rcases mem_setA hnda hp with hp' | ⟨hp', _⟩
    · rw [hp']; exact hid
    · exact hkid p hp'
  · intro p hp
    rcases mem_setA hnda hp with hp' | ⟨hp', hpk⟩
    · rw [hp']
      exact ⟨by simp, by simp [refOkB]⟩
    · have hIA := hag p hp'
      refine ⟨hIA.1, refOkB_setA_of_ne hIA.2 ?_⟩
      intro hcurr
      have h2 : (match getA tid s.tasks with
          | some u => decide (u.status = TaskStatus.running) && decide (u.agentId = p.2.id)
          | none => false) = true := by
        have h0 := hIA.2
        unfold refOkB at h0
        rw [hcurr] at h0
        exact h0
      rw [hget] at h2
      simp at h2
      have : p.1 = aid := by
        rw [hkid p hp', ← h2.2, hown, hid]
      exact hpk this

theorem CoordInv_complete (s : CoordState) (now : Nat) (tid aid out : String)
    {a : AgentState} (hInv : CoordInv s) (ha : getA aid s.agents = some a)
    (hcur : a.currentTaskId = some tid) :
    CoordInv (handleCompleteTask s now tid aid out) := by
  obtain ⟨_, t0, hget, _, _⟩ := inv_assignee_facts hInv ha hcur
  unfold handleCompleteTask
  rw [hget, ha]
  exact CoordInv_tryAssign now (CoordInv_completeCore s now tid aid out hInv ha hcur)

theorem CoordInv_finishUpdate {s : CoordState} {aid tid : String} {a : AgentState}
    (hInv : CoordInv s) (ha : getA aid s.agents = some a)
    (hcur : a.currentTaskId = some tid) (t' : AgentTask) (a' : AgentState)
    (q : List String) (hid' : a'.id = a.id) (hst' : a'.status ≠ AgentStatus.busy)
    (hcur' : a'.currentTaskId = none) :
    CoordInv { s with
      tasks := setA tid t' s.tasks
      agents := setA aid a' s.agents
      taskQueue := q } := by
  obtain ⟨hid, t0, hget, hrun, hown⟩ := inv_assignee_facts hInv ha hcur
  obtain ⟨⟨hkid, hnda, hndt⟩, hag⟩ := hInv
  constructor
  · refine ⟨?_, nodup_keysA_setA _ _ _ hnda, nodup_keysA_setA _ _ _ hndt⟩
    intro p hp
    rcases mem_setA hnda hp with hp' | ⟨hp', _⟩
    · rw [hp']
      show aid = a'.id
      rw [hid', hid]
    · exact hkid p hp'
  · intro p hp
    rcases mem_setA hnda hp with hp' | ⟨hp', hpk⟩
    · rw [hp']
      constructor
      · show a'.status = AgentStatus.busy ↔ a'.currentTaskId ≠ none
        rw [hcur']
        simp [hst']
      · show refOkB _ a' = true
        unfold refOkB
        rw [hcur']
    · have hIA := hag p hp'
      refine ⟨hIA.1, refOkB_setA_of_ne hIA.2 ?_⟩
      intro hcurr
      have h2 : (match getA tid s.tasks with
          | some u => decide (u.status = TaskStatus.running) && decide (u.agentId = p.2.id)
          | none => false) = true := by
        have h0 := hIA.2
        unfold refOkB at h0
        rw [hcurr] at h0
        exact h0
      rw [hget] at h2
      simp at h2
      have : p.1 = aid := by
        rw [hkid p hp', ← h2.2, hown, hid]
      exact hpk this

theorem CoordInv_fail (s : CoordState) (now : Nat) (tid aid e : String)
    (sr : Bool) {a : AgentState} (hInv : CoordInv s) (ha : getA aid s.agents = some a)
    (hcur : a.currentTaskId = some tid) :
    CoordInv (handleFailTask s now tid aid e sr) := by
  obtain ⟨hid, t0, hget, hrun, hown⟩ := inv_assignee_facts hInv ha hcur
  unfold handleFailTask
  rw [hget, ha]
  cases sr with
  | true =>
    exact CoordInv_finishUpdate hInv ha hcur
      { t0 with status := TaskStatus.retrying, agentId := "" }
      { a with status := AgentStatus.idle, currentTaskId := none, tasksFailed := a.tasksFailed + 1 }
      (tid :: s.taskQueue) rfl (by simp) rfl
  | false =>
    exact CoordInv_finishUpdate hInv ha hcur
      { t0 with status := TaskStatus.failed, error := some e, completedAt := some now }
      { a with status := AgentStatus.idle, currentTaskId := none, tasksFailed := a.tasksFailed + 1 }
      s.taskQueue rfl (by simp) rfl

/-- One stale-agent iteration of the maintenance sweep preserves the
invariant, provided the entry (taken from the pre-sweep registry) is not a
busy agent when stale. -/
theorem CoordInv_alarmStep {s : CoordState} (now : Nat) {st : CoordState}
    (p : String × AgentState) (hp : p ∈ s.agents) (horig : CoordInv s)
    (hstale : p.2.lastHeartbeat < now - 5 * 60 * 1000 → p.2.status ≠ AgentStatus.busy)
    (hst : CoordInv st) : CoordInv (alarmStep now st p) := by
  unfold alarmStep
  by_cases hcond : p.2.lastHeartbeat < now - 5 * 60 * 1000 ∧ p.2.status ≠ AgentStatus.offline
  · rw [if_pos hcond]
    obtain ⟨⟨hkid, hnda, hndt⟩, hag⟩ := horig
    have hIA := hag p hp
    have hnb := hstale hcond.1
    have hcur : p.2.currentTaskId = none := by
      by_contra hne
      exact hnb (hIA.1.mpr (by simpa using hne))
    rw [hcur]
    obtain ⟨⟨hkid', hnda', hndt'⟩, hag'⟩ := hst
    constructor
    · refine ⟨?_, nodup_keysA_setA _ _ _ hnda', hndt'⟩
      intro q hq
      rcases mem_setA hnda' hq with hq' | ⟨hq', _⟩
      · rw [hq']
        exact hkid p hp
      · exact hkid' q hq'
    · intro q hq
      rcases mem_setA hnda' hq with hq' | ⟨hq', _⟩
      · rw [hq']
        constructor
        · show AgentStatus.offline = AgentStatus.busy ↔ p.2.currentTaskId ≠ none
          rw [hcur]
          simp
        · show refOkB _ _ = true
          unfold refOkB
          rw [show ({ p.2 with status := AgentStatus.offline } : AgentState).currentTaskId =
            p.2.currentTaskId from rfl, hcur]
      · exact hag' q hq'
  · rw [if_neg hcond]
    exact hst

/-- The keep-predicate of the task cleanup holds for every `running` task. -/
theorem cleanup_keeps_running (now : Nat) (q : String × AgentTask)
    (h : q.2.status = TaskStatus.running) : (!taskExpired now q) = true := by
  unfold taskExpired
  rw [h]
  simp

/-- The maintenance sweep preserves the invariant when no stale agent is
busy: offline-marking keeps `currentTaskId = none` agents consistent, and
the 24-hour purge only removes `completed`/`failed` tasks, never a busy
agent's `running` task. -/
theorem CoordInv_alarm {s : CoordState} (now : Nat) (h : CoordInv s)
    (hstale : ∀ p ∈ s.agents,
      p.2.lastHeartbeat < now - 5 * 60 * 1000 → p.2.status ≠ AgentStatus.busy) :
    CoordInv (coordAlarm now s) := by
  unfold coordAlarm
  have hfold : CoordInv (s.agents.foldl (alarmStep now) s) :=
    foldl_preserve_mem
      (fun st q hq hst => CoordInv_alarmStep now q hq h (hstale q hq) hst) h
  obtain ⟨⟨hkid, hnda, hndt⟩, hag⟩ := hfold
  constructor
  · refine ⟨hkid, hnda, ?_⟩
    exact ((List.filter_sublist _).map Prod.fst).nodup hndt
  · intro p hp
    have hIA := hag p hp
    refine ⟨hIA.1, ?_⟩
    unfold refOkB
    cases hc : p.2.currentTaskId with
    | none => rfl
    | some tid =>
      have h2 : (match getA tid (s.agents.foldl (alarmStep now) s).tasks with
          | some u => decide (u.status = TaskStatus.running) && decide (u.agentId = p.2.id)
          | none => false) = true := by
        have h0 := hIA.2
        unfold refOkB at h0
        rw [hc] at h0
        exact h0
      cases hg : getA tid (s.agents.foldl (alarmStep now) s).tasks with
      | none => rw [hg] at h2; simp at h2
      | some u =>
        rw [hg] at h2
        simp at h2
        have hkeep := getA_filter (fun q => !taskExpired now q) hndt hg
          (cleanup_keeps_running now (tid, u) h2.1)
        show (match getA tid ((s.agents.foldl (alarmStep now) s).tasks.filter
            (fun q => !taskExpired now q)) with
          | some u => decide (u.status = TaskStatus.running) && decide (u.agentId = p.2.id)
          | none => false) = true
        rw [hkeep]
        simp [h2.1, h2.2]

/-- The assignment pass never touches a task that is not `pending`. -/
theorem assignOneAg_preserves_task (now : Nat) (ag : AgentState) {st : CoordState}
    {tid : String} {t : AgentTask} (hst : t.status ≠ TaskStatus.pending)
    (h : getA tid st.tasks = some t) :
    getA tid (assignOneAg now st ag).tasks = some t := by
  unfold assignOneAg
  cases hf : findPending st.tasks ag st.taskQueue with
  | none => exact h
  | some r =>
    obtain ⟨tid', t', q'⟩ := r
    obtain ⟨_, _, _, _, hget, hpend, _, _⟩ := findPending_some hf
    show getA tid (setA tid' _ st.tasks) = some t
    have hne : tid' ≠ tid := by
      intro he
      rw [he, h] at hget
      injection hget with hg
      rw [hg] at hst
      exact hst hpend

    rw [getA_setA_ne tid tid' _ st.tasks hne]
    exact h

theorem tryAssign_preserves_task (now : Nat) {s : CoordState} {tid : String}
    {t : AgentTask} (hst : t.status ≠ TaskStatus.pending)
    (h : getA tid s.tasks = some t) :
    getA tid (tryAssignTasks now s).tasks = some t :=
  foldl_preserve_mem (P := fun st : CoordState => getA tid st.tasks = some t)
    (fun st ag _ hb => assignOneAg_preserves_task now ag hst hb) h

/-- With an empty backlog the assignment pass is the identity. -/
theorem foldl_assign_empty_queue (now : Nat) :
    ∀ (l : List AgentState) (st : CoordState), st.taskQueue = [] →
      l.foldl (assignOneAg now) st = st := by
  intro l
  induction l with
  | nil => intro st _; rfl
  | cons ag l ih =>
    intro st hq
    have hstep : assignOneAg now st ag = st := by
      unfold assignOneAg
      rw [hq]
      rfl
    rw [List.foldl_cons, hstep]
    exact ih st hq

theorem tryAssign_empty_queue (now : Nat) {s : CoordState} (hq : s.taskQueue = []) :
    tryAssignTasks now s = s :=
  foldl_assign_empty_queue now _ s hq

/-! ## Claim theorems -/
/-- C1 (counterexample): in the reachable state `coordBusy` the invariant
holds, but it is violated by a heartbeat that sets the busy agent `idle`
(its `currentTaskId` stays set), by the maintenance sweep on a stale busy
agent (marked `offline` with `currentTaskId` still set), and by `complete`
or `fail` invoked by an agent other than the task's assignee (the real
assignee stays `busy` while its referenced task leaves `running`). -/
theorem busy_invariant_counterexample :
    CoordInv coordBusy ∧
    ¬CoordInv (handleHeartbeat coordBusy 5 "a1" (some AgentStatus.idle)) ∧
    ¬CoordInv (coordAlarm 600000 coordBusy) ∧
    ¬CoordInv (handleCompleteTask coordBusyPlusIdle 20 "t1" "a2" "out") ∧
    ¬CoordInv (handleFailTask coordBusyPlusIdle 20 "t1" "a2" "err" false) := by
  decide

/-- C1 (amended): the busy ⇔ current-task ⇔ running-with-matching-reference
biconditional is preserved by `register`, by `heartbeat` without a status
update, by `submit` with a fresh task id, by `requestNext`, by `complete`
and `fail` when the calling agent is the task's current assignee, and by
the maintenance sweep when no stale agent is busy.  (The counterexample
shows it is not preserved by a status-rewriting heartbeat, by
non-assignee `complete`/`fail`, or by the sweep on a stale busy agent.) -/
theorem busy_invariant_preservation_amended :
    (∀ s now aid name ty caps, CoordInv s →
      CoordInv (handleRegisterAgent s now aid name ty caps)) ∧
    (∀ s now aid, CoordInv s → CoordInv (handleHeartbeat s now aid none)) ∧
    (∀ s now tid ty d i pr par, CoordInv s → getA tid s.tasks = none →
      CoordInv (handleSubmitTask s now tid ty d i pr par)) ∧
    (∀ s now aid, CoordInv s → CoordInv (handleGetNextTask s now aid).2) ∧
    (∀ s now tid aid out a, CoordInv s → getA aid s.agents = some a →
      a.currentTaskId = some tid → CoordInv (handleCompleteTask s now tid aid out)) ∧
    (∀ s now tid aid e sr a, CoordInv s → getA aid s.agents = some a →
      a.currentTaskId = some tid → CoordInv (handleFailTask s now tid aid e sr)) ∧
    (∀ s now, CoordInv s →
      (∀ p ∈ s.agents, p.2.lastHeartbeat < now - 5 * 60 * 1000 →
        p.2.status ≠ AgentStatus.busy) →
      CoordInv (coordAlarm now s)) :=
  ⟨fun s now aid name ty caps h => CoordInv_register s now aid name ty caps h,
   fun s now aid h => CoordInv_heartbeat_none s now aid h,
   fun s now tid ty d i pr par h hf => CoordInv_submit s now tid ty d i pr par h hf,
   fun s now aid h => CoordInv_getNext s now aid h,
   fun s now tid aid out a h ha hc => CoordInv_complete s now tid aid out h ha hc,
   fun s now tid aid e sr a h ha hc => CoordInv_fail s now tid aid e sr h ha hc,
   fun s now h hs => CoordInv_alarm now h hs⟩

theorem busy_invariant_preservation_amended_witness :
    CoordInv (handleRegisterAgent CoordState.empty 0 "a1" "Agent1" "analyzer" []) ∧
    CoordInv (handleHeartbeat coordBusy 5 "a1" none) ∧
    CoordInv (handleSubmitTask coordOneAgent 0 "t1" "repo:analyze" "demo" "" "normal" none) ∧
    CoordInv (handleGetNextTask coordBusy 1 "a1").2 ∧
    CoordInv (handleCompleteTask coordBusy 20 "t1" "a1" "out") ∧
    CoordInv (handleFailTask coordBusy 20 "t1" "a1" "err" true) ∧
    CoordInv (coordAlarm 1000 coordBusy) :=
  ⟨busy_invariant_preservation_amended.1 CoordState.empty 0 "a1" "Agent1" "analyzer" []
    (by decide),
   busy_invariant_preservation_amended.2.1 coordBusy 5 "a1" (by decide),
   busy_invariant_preservation_amended.2.2.1 coordOneAgent 0 "t1" "repo:analyze" "demo" ""
    "normal" none (by decide) (by decide),
   busy_invariant_preservation_amended.2.2.2.1 coordBusy 1 "a1" (by decide),
   busy_invariant_preservation_amended.2.2.2.2.1 coordBusy 20 "t1" "a1" "out" agentA1busy
    (by decide) (by decide) (by decide),
   busy_invariant_preservation_amended.2.2.2.2.2.1 coordBusy 20 "t1" "a1" "err" true
    agentA1busy (by decide) (by decide) (by decide),
   busy_invariant_preservation_amended.2.2.2.2.2.2 coordBusy 1000 (by decide) (by decide)⟩

/-- C4: after `failTask` with retry the task is `retrying`, unassigned and
at the backlog front — but both assignment scans accept only `pending`
tasks, so a subsequent `requestNextTask` from the idle capable agent
returns no task at all, and a later fresh submission of the same type is
assigned in its place.  This contradicts the code's own "Re-queue with
priority" intent: the retried task is never picked up. -/
theorem failTask_retry_scan_skips_retrying :
    (getA "t1" coordRetryState.tasks).map AgentTask.status = some TaskStatus.retrying ∧
    (getA "t1" coordRetryState.tasks).map AgentTask.agentId = some "" ∧
    coordRetryState.taskQueue = ["t1"] ∧
    (getA "a1" coordRetryState.agents).map AgentState.status = some AgentStatus.idle ∧
    (handleGetNextTask coordRetryState 11 "a1").1 = none ∧
    (handleGetNextTask coordRetryState 11 "a1").2 = coordRetryState ∧
    (getA "a1" (handleSubmitTask coordRetryState 12 "t2" "repo:analyze" "d" "" "normal"
      none).agents).map AgentState.currentTaskId = some (some "t2") := by
  decide

/-- C5 (counterexample): `handleFailTask` runs no assignment pass.  In
`coordPendingBacklog` task `u3` is pending while both agents are busy;
after `a1` fails `u1` the agent is idle and `u3` is still pending and
unassigned, although the greedy pass (had it run, as the claim states)
would have assigned `u3`. -/
theorem assignment_after_failure_counterexample :
    (getA "u3" coordPendingBacklog.tasks).map AgentTask.status = some TaskStatus.pending ∧
    handleFailTask coordPendingBacklog 4 "u1" "a1" "boom" false = coordAfterFail ∧
    (getA "a1" coordAfterFail.agents).map AgentState.status = some AgentStatus.idle ∧
    (getA "u3" coordAfterFail.tasks).map AgentTask.status = some TaskStatus.pending ∧
    coordAfterFail.taskQueue = ["u3"] ∧
    (getA "u3" (tryAssignTasks 4 coordAfterFail).tasks).map AgentTask.status =
      some TaskStatus.running ∧
    coordAfterFail ≠ tryAssignTasks 4 coordAfterFail := by
  decide

/-- C5 (amended): the greedy assignment pass runs after every submission
and after every completion (not after failures); each per-agent scan walks
the backlog front-to-back and picks exactly the first entry resolving to a
pending task the agent can handle, and an empty result means no backlog
entry was assignable. -/
theorem assignment_pass_amended :
    (∀ s now tid ty d i pr par,
      handleSubmitTask s now tid ty d i pr par =
        tryAssignTasks now (submitCore s now tid ty d i pr par)) ∧
    (∀ s now tid aid out t a, getA tid s.tasks = some t → getA aid s.agents = some a →
      handleCompleteTask s now tid aid out =
        tryAssignTasks now (completeCore s now tid aid out)) ∧
    (∀ tasks ag q tid t q', findPending tasks ag q = some (tid, t, q') →
      ∃ pre post, q = pre ++ tid :: post ∧ q' = pre ++ post ∧
        getA tid tasks = some t ∧ t.status = TaskStatus.pending ∧
        canAgentHandleTask ag t = true ∧
        ∀ x ∈ pre, ∀ u, getA x tasks = some u →
          ¬(u.status = TaskStatus.pending ∧ canAgentHandleTask ag u = true)) ∧
    (∀ tasks ag q, findPending tasks ag q = none →
      ∀ x ∈ q, ∀ u, getA x tasks = some u →
        ¬(u.status = TaskStatus.pending ∧ canAgentHandleTask ag u = true)) := by
  refine ⟨fun s now tid ty d i pr par => rfl, ?_, ?_, ?_⟩
  · intro s now tid aid out t a ht ha
    unfold handleCompleteTask
    rw [ht, ha]
  · intro tasks ag q tid t q' hf
    exact findPending_some hf
  · intro tasks ag q hf
    exact findPending_none hf

theorem assignment_pass_amended_witness :
    handleSubmitTask coordTwoBusy2 3 "u3" "repo:analyze" "d" "" "normal" none =
      tryAssignTasks 3 (submitCore coordTwoBusy2 3 "u3" "repo:analyze" "d" "" "normal" none) ∧
    handleCompleteTask coordBusy 20 "t1" "a1" "out" =
      tryAssignTasks 20 (completeCore coordBusy 20 "t1" "a1" "out") ∧
    (∃ pre post, ["t1"] = pre ++ "t1" :: post ∧ ([] : List String) = pre ++ post ∧
      getA "t1" [("t1", taskT1pending)] = some taskT1pending ∧
      taskT1pending.status = TaskStatus.pending ∧
      canAgentHandleTask agentA1idle taskT1pending = true ∧
      ∀ x ∈ pre, ∀ u, getA x [("t1", taskT1pending)] = some u →
        ¬(u.status = TaskStatus.pending ∧ canAgentHandleTask agentA1idle u = true)) ∧
    (∀ x ∈ ["zz"], ∀ u, getA x ([] : List (String × AgentTask)) = some u →
      ¬(u.status = TaskStatus.pending ∧ canAgentHandleTask agentA1idle u = true)) :=
  ⟨assignment_pass_amended.1 coordTwoBusy2 3 "u3" "repo:analyze" "d" "" "normal" none,
   assignment_pass_amended.2.1 coordBusy 20 "t1" "a1" "out" taskT1running agentA1busy
    (by decide) (by decide),
   assignment_pass_amended.2.2.1 [("t1", taskT1pending)] agentA1idle ["t1"] "t1"
    taskT1pending [] (by decide),
   assignment_pass_amended.2.2.2 ([] : List (String × AgentTask)) agentA1idle ["zz"]
    (by decide)⟩

/-- C9: `heartbeat` is a frame operation.  For a registered agent it leaves
the task map and the backlog untouched, replaces only that agent's entry —
updating `lastHeartbeat` and, when supplied, `status`, with every other
field (in particular `currentTaskId`) kept — and leaves all other agents'
entries unchanged.  Consequently a heartbeat that sets a busy agent `idle`
leaves its `currentTaskId` set and the referenced task exactly as it was. -/
theorem heartbeat_frame (s : CoordState) (now : Nat) (aid : String)
    (st : Option AgentStatus) (a : AgentState) (ha : getA aid s.agents = some a) :
    (handleHeartbeat s now aid st).tasks = s.tasks ∧
    (handleHeartbeat s now aid st).taskQueue = s.taskQueue ∧
    getA aid (handleHeartbeat s now aid st).agents =
      some { a with
        lastHeartbeat := now
        status := match st with
          | some x => x
          | none => a.status } ∧
    (∀ k, k ≠ aid → getA k (handleHeartbeat s now aid st).agents = getA k s.agents) := by
  unfold handleHeartbeat
  rw [ha]
  refine ⟨rfl, rfl, ?_, ?_⟩
  · exact getA_setA_self _ _ _
  · intro k hk
    exact getA_setA_ne k aid _ s.agents (fun he => hk he.symm)

theorem heartbeat_frame_witness :
    (handleHeartbeat coordBusy 5 "a1" (some AgentStatus.idle)).tasks = coordBusy.tasks ∧
    (handleHeartbeat coordBusy 5 "a1" (some AgentStatus.idle)).taskQueue =
      coordBusy.taskQueue ∧
    getA "a1" (handleHeartbeat coordBusy 5 "a1" (some AgentStatus.idle)).agents =
      some { agentA1busy with
        lastHeartbeat := 5
        status := match some AgentStatus.idle with
          | some x => x
          | none => agentA1busy.status } ∧
    (∀ k, k ≠ "a1" → getA k (handleHeartbeat coordBusy 5 "a1"
      (some AgentStatus.idle)).agents = getA k coordBusy.agents) :=
  heartbeat_frame coordBusy 5 "a1" (some AgentStatus.idle) agentA1busy (by decide)

/-- C10: `completeTask` performs no precondition checks.  For any existing
task and agent — regardless of the task's status, its actual assignee, and
the agent's status — the handler equals the completion mutations followed
by the assignment pass; the mutations mark the task `completed` with the
given output and a completion timestamp and set the calling agent `idle`
with `currentTaskId` cleared and its completed counter incremented; the
completed task survives the assignment pass unchanged, and with an empty
backlog so does the agent's new state. -/
theorem completeTask_no_checks (s : CoordState) (now : Nat) (tid aid out : String)
    (t : AgentTask) (a : AgentState)
    (ht : getA tid s.tasks = some t) (ha : getA aid s.agents = some a) :
    handleCompleteTask s now tid aid out =
      tryAssignTasks now (completeCore s now tid aid out) ∧
    getA tid (completeCore s now tid aid out).tasks =
      some { t with status := TaskStatus.completed, output := some out, completedAt := some now } ∧
    getA aid (completeCore s now tid aid out).agents =
      some { a with status := AgentStatus.idle, currentTaskId := none, tasksCompleted := a.tasksCompleted + 1 } ∧
    (completeCore s now tid aid out).taskQueue = s.taskQueue ∧
    getA tid (handleCompleteTask s now tid aid out).tasks =
      some { t with status := TaskStatus.completed, output := some out, completedAt := some now } ∧
    (s.taskQueue = [] →
      getA aid (handleCompleteTask s now tid aid out).agents =
        some { a with status := AgentStatus.idle, currentTaskId := none, tasksCompleted := a.tasksCompleted + 1 }) := by
  have hcore : getA tid (completeCore s now tid aid out).tasks =
      some { t with status := TaskStatus.completed, output := some out, completedAt := some now } := by
    unfold completeCore
    rw [ht, ha]
    exact getA_setA_self _ _ _
  have heq : handleCompleteTask s now tid aid out =
      tryAssignTasks now (completeCore s now tid aid out) := by
    unfold handleCompleteTask
    rw [ht, ha]
  have hagent : getA aid (completeCore s now tid aid out).agents =
      some { a with status := AgentStatus.idle, currentTaskId := none, tasksCompleted := a.tasksCompleted + 1 } := by
    unfold completeCore
    rw [ht, ha]
    exact getA_setA_self _ _ _
  have hqueue : (completeCore s now tid aid out).taskQueue = s.taskQueue := by
    unfold completeCore
    rw [ht, ha]
  refine ⟨heq, hcore, hagent, hqueue, ?_, ?_⟩
  · rw [heq]
    exact tryAssign_preserves_task now (by simp) hcore
  · intro hq
    rw [heq, tryAssign_empty_queue now (by rw [hqueue]; exact hq)]
    exact hagent

theorem completeTask_no_checks_witness :
    handleCompleteTask coordBusyPlusIdle 20 "t1" "a2" "out" =
      tryAssignTasks 20 (completeCore coordBusyPlusIdle 20 "t1" "a2" "out") ∧
    getA "t1" (completeCore coordBusyPlusIdle 20 "t1" "a2" "out").tasks =
      some { taskT1running with status := TaskStatus.completed, output := some "out", completedAt := some 20 } ∧
    getA "a2" (completeCore coordBusyPlusIdle 20 "t1" "a2" "out").agents =
      some { agentA2idle with status := AgentStatus.idle, currentTaskId := none, tasksCompleted := agentA2idle.tasksCompleted + 1 } ∧
    (completeCore coordBusyPlusIdle 20 "t1" "a2" "out").taskQueue =
      coordBusyPlusIdle.taskQueue ∧
    getA "t1" (handleCompleteTask coordBusyPlusIdle 20 "t1" "a2" "out").tasks =
      some { taskT1running with status := TaskStatus.completed, output := some "out", completedAt := some 20 } ∧
    (coordBusyPlusIdle.taskQueue = [] →
      getA "a2" (handleCompleteTask coordBusyPlusIdle 20 "t1" "a2" "out").agents =
        some { agentA2idle with status := AgentStatus.idle, currentTaskId := none, tasksCompleted := agentA2idle.tasksCompleted + 1 }) :=
  completeTask_no_checks coordBusyPlusIdle 20 "t1" "a2" "out" taskT1running agentA2idle
    (by decide) (by decide)

/-! ## Job queue: scan characterization and claim scenarios -/
/-- The scan `scanLane` returns the first lane entry that resolves to an eligible
job, splicing it out. -/
theorem scanLane_some {jobs : List (String × QueuedJob)} {now : Nat}
    {types : Option (List String)} {q : List String} {jid : String}
    {job : QueuedJob} {q' : List String}
    (h : scanLane jobs now types q = some (jid, job, q')) :
    ∃ pre post, q = pre ++ jid :: post ∧ q' = pre ++ post ∧
      getA jid jobs = some job ∧ jobEligible now types job = true ∧
      ∀ x ∈ pre, ∀ u, getA x jobs = some u → jobEligible now types u = false := by
  induction q generalizing jid job q' with
  | nil => simp [scanLane] at h
  | cons x rest ih =>
    cases hx : getA x jobs with
    | none =>
      simp only [scanLane, hx] at h
      rcases Option.map_eq_some'.mp h with ⟨r, hr, hre⟩
      obtain ⟨jid0, job0, q0⟩ := r
      simp at hre
      obtain ⟨h1, h2, h3⟩ := hre
      subst h1; subst h2
      obtain ⟨pre, post, he, he', hget, hel, hskip⟩ := ih hr
      refine ⟨x :: pre, post, by simp [he], by simp [← h3, he'], hget, hel, ?_⟩
      intro y hy u hu
      rcases List.mem_cons.mp hy with hy' | hy'
      · subst hy'
        rw [hu] at hx
        exact absurd hx (by simp)
      · exact hskip y hy' u hu
    | some u =>
      simp only [scanLane, hx] at h
      by_cases hu : jobEligible now types u = true
      · rw [if_pos hu] at h
        simp at h
        obtain ⟨h1, h2, h3⟩ := h
        subst h1; subst h2; subst h3
        exact ⟨[], rest, by simp, by simp, hx, hu, by simp⟩
      · rw [if_neg hu] at h
        rcases Option.map_eq_some'.mp h with ⟨r, hr, hre⟩
        obtain ⟨jid0, job0, q0⟩ := r
        simp at hre
        obtain ⟨h1, h2, h3⟩ := hre
        subst h1; subst h2
        obtain ⟨pre, post, he, he', hget, hel, hskip⟩ := ih hr
        refine ⟨x :: pre, post, by simp [he], by simp [← h3, he'], hget, hel, ?_⟩
        intro y hy v hv
        rcases List.mem_cons.mp hy with hy' | hy'
        · subst hy'
          rw [hv] at hx
          injection hx with hx'
          subst hx'
          simp at hu
          exact hu
        · exact hskip y hy' v hv

/-- An empty scan means no lane entry resolves to an eligible job. -/
theorem scanLane_none {jobs : List (String × QueuedJob)} {now : Nat}
    {types : Option (List String)} {q : List String}
    (h : scanLane jobs now types q = none) :
    ∀ x ∈ q, ∀ u, getA x jobs = some u → jobEligible now types u = false := by
  induction q with
  | nil => simp
  | cons x rest ih =>
    intro y hy u hu
    cases hx : getA x jobs with
    | none =>
      simp only [scanLane, hx] at h
      rcases List.mem_cons.mp hy with hy' | hy'
      · subst hy'
        rw [hu] at hx
        exact absurd hx (by simp)
      · exact ih (by simpa using h) y hy' u hu
    | some v =>
      simp only [scanLane, hx] at h
      by_cases hv : jobEligible now types v = true
      · rw [if_pos hv] at h
        simp at h
      · rw [if_neg hv] at h
        rcases List.mem_cons.mp hy with hy' | hy'
        · subst hy'
          rw [hu] at hx
          injection hx with hx'
          subst hx'
          simp at hv
          exact hv
        · exact ih (by simpa using h) y hy' u hu

/-- The scan `dequeueScan` picks the first lane (in the given order) whose scan
succeeds; all earlier lanes scanned empty. -/
theorem dequeueScan_some {s : QueueState} {now : Nat} {types : Option (List String)}
    {ps : List JobPriority} {p : JobPriority}
    {r : String × QueuedJob × List String}
    (h : dequeueScan s now types ps = some (p, r)) :
    ∃ pre post, ps = pre ++ p :: post ∧
      (∀ pq ∈ pre, scanLane s.jobs now types (s.lanes.get pq) = none) ∧
      scanLane s.jobs now types (s.lanes.get p) = some r := by
  induction ps with
  | nil => simp [dequeueScan] at h
  | cons q ps ih =>
    cases hq : scanLane s.jobs now types (s.lanes.get q) with
    | some r0 =>
      simp only [dequeueScan, hq] at h
      simp at h
      obtain ⟨h1, h2⟩ := h
      subst h1; subst h2
      exact ⟨[], ps, by simp, by simp, hq⟩
    | none =>
      simp only [dequeueScan, hq] at h
      obtain ⟨pre, post, he, hn, hs⟩ := ih h
      refine ⟨q :: pre, post, by simp [he], ?_, hs⟩
      intro pq hpq
      rcases List.mem_cons.mp hpq with hpq' | hpq'
      · subst hpq'
        exact hq
      · exact hn pq hpq'

/-- C3: `dequeue` scans the lanes in the fixed order critical, high,
normal, low, and within a lane front-to-back, returning the first eligible
pending job (every entry of every earlier lane, and every earlier entry of
the hit lane, is ineligible); in the concrete scenario with jobs enqueued
(low,A), (critical,B), (normal,C), (high,D), four successive dequeues
return B, then D, then C, then A. -/
theorem dequeue_scans_lanes_in_priority_order :
    (∀ s now types jid s₂, handleDequeue s now types = (some jid, s₂) →
      ∃ p job q' pre post lpre lpost,
        priorityOrder = pre ++ p :: post ∧
        (∀ pq ∈ pre, ∀ x ∈ s.lanes.get pq, ∀ u, getA x s.jobs = some u →
          jobEligible now types u = false) ∧
        s.lanes.get p = lpre ++ jid :: lpost ∧ q' = lpre ++ lpost ∧
        getA jid s.jobs = some job ∧ jobEligible now types job = true ∧
        (∀ x ∈ lpre, ∀ u, getA x s.jobs = some u → jobEligible now types u = false) ∧
        s₂ = { s with
          lanes := s.lanes.set p q'
          jobs := setA jid
            { job with status := JobStatus.processing, startedAt := some now } s.jobs
          stats := { s.stats with
            pending := s.stats.pending - 1
            processing := s.stats.processing + 1 } }) ∧
    (jqd1.1 = some "B" ∧ jqd2.1 = some "D" ∧ jqd3.1 = some "C" ∧ jqd4.1 = some "A") := by
  constructor
  · intro s now types jid s₂ h
    unfold handleDequeue at h
    cases hd : dequeueScan s now types priorityOrder with
    | none =>
      rw [hd] at h
      simp at h
    | some pr =>
      obtain ⟨p, r⟩ := pr
      obtain ⟨jid0, job, q'⟩ := r
      rw [hd] at h
      simp at h
      obtain ⟨h1, h2⟩ := h
      subst h1
      obtain ⟨pre, post, he, hnone, hs⟩ := dequeueScan_some hd
      obtain ⟨lpre, lpost, hl, hl', hget, hel, hskip⟩ := scanLane_some hs
      refine ⟨p, job, q', pre, post, lpre, lpost, he, ?_, hl, hl', hget, hel, hskip, h2.symm⟩
      intro pq hpq x hx u hu
      exact scanLane_none (hnone pq hpq) x hx u hu
  · decide

theorem dequeue_scans_lanes_in_priority_order_witness :
    ∃ p job q' pre post lpre lpost,
      priorityOrder = pre ++ p :: post ∧
      (∀ pq ∈ pre, ∀ x ∈ jq4.lanes.get pq, ∀ u, getA x jq4.jobs = some u →
        jobEligible 0 none u = false) ∧
      jq4.lanes.get p = lpre ++ "B" :: lpost ∧ q' = lpre ++ lpost ∧
      getA "B" jq4.jobs = some job ∧ jobEligible 0 none job = true ∧
      (∀ x ∈ lpre, ∀ u, getA x jq4.jobs = some u → jobEligible 0 none u = false) ∧
      jqd1.2 = { jq4 with
        lanes := jq4.lanes.set p q'
        jobs := setA "B"
          { job with status := JobStatus.processing, startedAt := some 0 } jq4.jobs
        stats := { jq4.stats with
          pending := jq4.stats.pending - 1
          processing := jq4.stats.processing + 1 } } :=
  dequeue_scans_lanes_in_priority_order.1 jq4 0 none "B" jqd1.2 (by decide)

/-- C2: `fail` retries exactly when `shouldRetry` is not explicitly false
and `retryCount < maxRetries`, with backoff `2 ^ retryCount` seconds from
the pre-increment count, the incremented count, status back to `pending`,
`scheduledFor = now + delay`, and the id pushed to the front of the job's
original priority lane; otherwise the job is dead-lettered with a
completion timestamp.  The retry count never exceeds `maxRetries`, and the
concrete `maxRetries = 3` run yields delays of 1s, 2s and 4s before the
fourth failure dead-letters the job. -/
theorem fail_retry_backoff :
    (∀ s now jid e sr job, getA jid s.jobs = some job → sr ≠ some false →
      job.retryCount < job.maxRetries →
      handleFail s now jid e sr = { s with
        jobs := setA jid
          { job with
            error := some e
            retryCount := job.retryCount + 1
            status := JobStatus.pending
            scheduledFor := some (now + 2 ^ job.retryCount * 1000) }
          s.jobs
        lanes := s.lanes.set job.priority (jid :: s.lanes.get job.priority)
        stats := { s.stats with
          processing := s.stats.processing - 1
          pending := s.stats.pending + 1 } }) ∧
    (∀ s now jid e sr job, getA jid s.jobs = some job →
      (sr = some false ∨ ¬job.retryCount < job.maxRetries) →
      handleFail s now jid e sr = { s with
        jobs := setA jid
          { job with
            error := some e
            status := JobStatus.dead
            completedAt := some now }
          s.jobs
        stats := { s.stats with
          processing := s.stats.processing - 1
          dead := s.stats.dead + 1 } }) ∧
    (∀ s now jid e sr job, getA jid s.jobs = some job →
      job.retryCount ≤ job.maxRetries →
      ∀ u, getA jid (handleFail s now jid e sr).jobs = some u →
        u.retryCount ≤ u.maxRetries) ∧
    ((getA "J" jf3.jobs).map (fun j => (j.retryCount, j.scheduledFor, j.status)) =
        some (1, some 1000, JobStatus.pending) ∧
      jf3.lanes.normal = ["J"] ∧
      (getA "J" jf5.jobs).map (fun j => (j.retryCount, j.scheduledFor, j.status)) =
        some (2, some 3000, JobStatus.pending) ∧
      (getA "J" jf7.jobs).map (fun j => (j.retryCount, j.scheduledFor, j.status)) =
        some (3, some 7000, JobStatus.pending) ∧
      (getA "J" jf9.jobs).map (fun j => (j.retryCount, j.status, j.completedAt)) =
        some (3, JobStatus.dead, some 7000)) := by
  have hretry : ∀ s now jid e sr (job : QueuedJob), getA jid s.jobs = some job →
      sr ≠ some false → job.retryCount < job.maxRetries →
      handleFail s now jid e sr = { s with
        jobs := setA jid
          { job with
            error := some e
            retryCount := job.retryCount + 1
            status := JobStatus.pending
            scheduledFor := some (now + 2 ^ job.retryCount * 1000) }
          s.jobs
        lanes := s.lanes.set job.priority (jid :: s.lanes.get job.priority)
        stats := { s.stats with
          processing := s.stats.processing - 1
          pending := s.stats.pending + 1 } } := by
    intro s now jid e sr job hjob hsr hlt
    unfold handleFail
    rw [hjob]
    exact if_pos ⟨hsr, hlt⟩
  have hdead : ∀ s now jid e sr (job : QueuedJob), getA jid s.jobs = some job →
      (sr = some false ∨ ¬job.retryCount < job.maxRetries) →
      handleFail s now jid e sr = { s with
        jobs := setA jid
          { job with
            error := some e
            status := JobStatus.dead
            completedAt := some now }
          s.jobs
        stats := { s.stats with
          processing := s.stats.processing - 1
          dead := s.stats.dead + 1 } } := by
    intro s now jid e sr job hjob hcond
    unfold handleFail
    rw [hjob]
    refine if_neg ?_
    intro hc
    rcases hcond with hc' | hc'
    · exact hc.1 hc'
    · exact hc' hc.2
  refine ⟨hretry, hdead, ?_, by decide⟩
  intro s now jid e sr job hjob hle u hu
  by_cases hc : sr ≠ some false ∧ job.retryCount < job.maxRetries
  · rw [hretry s now jid e sr job hjob hc.1 hc.2] at hu
    rw [getA_setA_self] at hu
    injection hu with hu'
    rw [← hu']
    show job.retryCount + 1 ≤ job.maxRetries
    omega
  · have hcond : sr = some false ∨ ¬job.retryCount < job.maxRetries := by
      by_cases h1 : sr = some false
      · exact Or.inl h1
      · right
        intro h2
        exact hc ⟨h1, h2⟩
    rw [hdead s now jid e sr job hjob hcond] at hu
    rw [getA_setA_self] at hu
    injection hu with hu'
    rw [← hu']
    exact hle

theorem fail_retry_backoff_witness :
    handleFail jf4 1000 "J" "boom" (some true) = { jf4 with
      jobs := setA "J"
        { jobJ1 with
          error := some "boom"
          retryCount := jobJ1.retryCount + 1
          status := JobStatus.pending
          scheduledFor := some (1000 + 2 ^ jobJ1.retryCount * 1000) }
        jf4.jobs
      lanes := jf4.lanes.set jobJ1.priority ("J" :: jf4.lanes.get jobJ1.priority)
      stats := { jf4.stats with
        processing := jf4.stats.processing - 1
        pending := jf4.stats.pending + 1 } } ∧
    handleFail jf8 7000 "J" "boom" none = { jf8 with
      jobs := setA "J"
        { jobJ3 with
          error := some "boom"
          status := JobStatus.dead
          completedAt := some 7000 }
        jf8.jobs
      stats := { jf8.stats with
        processing := jf8.stats.processing - 1
        dead := jf8.stats.dead + 1 } } ∧
    (∀ u, getA "J" (handleFail jf8 7000 "J" "boom" none).jobs = some u →
      u.retryCount ≤ u.maxRetries) :=
  ⟨fail_retry_backoff.1 jf4 1000 "J" "boom" (some true) jobJ1 (by decide) (by decide)
    (by decide),
   fail_retry_backoff.2.1 jf8 7000 "J" "boom" none jobJ3 (by decide) (by decide),
   fail_retry_backoff.2.2.1 jf8 7000 "J" "boom" none jobJ3 (by decide) (by decide)⟩

/-! ## Normalization lemmas for `extractErrorPattern` (C6) -/
theorem takeHexN_append {n : Nat} {l l' r : List Char} (h : takeHexN n l = some l') :
    takeHexN n (l ++ r) = some (l' ++ r) := by
  induction n generalizing l with
  | zero =>
    simp [takeHexN] at h
    subst h
    simp [takeHexN]
  | succ n ih =>
    cases l with
    | nil => simp [takeHexN] at h
    | cons c cs =>
      by_cases hc : isHexDigit c = true
      · simp only [takeHexN, hc, if_true, List.cons_append] at h ⊢
        exact ih h
      · simp [takeHexN, hc] at h

theorem takeDash_append {l l' r : List Char} (h : takeDash l = some l') :
    takeDash (l ++ r) = some (l' ++ r) := by
  cases l with
  | nil => simp [takeDash] at h
  | cons c cs =>
    by_cases hc : c = '-'
    · simp only [takeDash, hc, if_true, List.cons_append] at h ⊢
      simp at h
      subst h
      rfl
    · simp [takeDash, hc] at h

theorem matchUUID_append {u u' r : List Char} (h : matchUUID u = some u') :
    matchUUID (u ++ r) = some (u' ++ r) := by
  simp only [matchUUID, Option.bind_eq_some] at h ⊢
  rcases h with ⟨l1, h1, l2, h2, l3, h3, l4, h4, l5, h5, l6, h6, l7, h7, l8, h8, h9⟩
  exact ⟨l1 ++ r, takeHexN_append h1, l2 ++ r, takeDash_append h2, l3 ++ r,
    takeHexN_append h3, l4 ++ r, takeDash_append h4, l5 ++ r, takeHexN_append h5,
    l6 ++ r, takeDash_append h6, l7 ++ r, takeHexN_append h7, l8 ++ r,
    takeDash_append h8, takeHexN_append h9⟩

theorem takeHexN_suffix {n : Nat} {l l' : List Char} (h : takeHexN n l = some l') :
    l' <:+ l := by
  induction n generalizing l with
  | zero =>
    simp [takeHexN] at h
    subst h
    exact List.suffix_refl _
  | succ n ih =>
    cases l with
    | nil => simp [takeHexN] at h
    | cons c cs =>
      by_cases hc : isHexDigit c = true
      · simp only [takeHexN, hc, if_true] at h
        exact (ih h).trans (List.suffix_cons c cs)
      · simp [takeHexN, hc] at h

theorem takeDash_dash {l l' : List Char} (h : takeDash l = some l') : '-' ∈ l := by
  cases l with
  | nil => simp [takeDash] at h
  | cons c cs =>
    by_cases hc : c = '-'
    · rw [hc]; exact List.mem_cons_self _ _
    · simp [takeDash, hc] at h

/-- A successful UUID match contains a dash. -/
theorem matchUUID_some_dash {l r : List Char} (h : matchUUID l = some r) : '-' ∈ l := by
  simp only [matchUUID, Option.bind_eq_some] at h
  rcases h with ⟨l1, h1, l2, h2, _⟩
  exact (takeHexN_suffix h1).subset (takeDash_dash h2)

theorem matchUUID_no_dash {l : List Char} (h : '-' ∉ l) : matchUUID l = none := by
  cases hm : matchUUID l with
  | none => rfl
  | some r => exact absurd (matchUUID_some_dash hm) h

/-- Unfolding equations of `uuidReplace` (resolving the fuel). -/
theorem uuidReplace_cons_match {c : Char} {l rem : List Char}
    (h : matchUUID (c :: l) = some rem) :
    uuidReplace (c :: l) = ['<', 'U', 'U', 'I', 'D', '>'] ++ uuidReplace rem := by
  have hlen := matchUUID_length h
  unfold uuidReplace
  simp only [List.length_cons, uuidReplaceF, h]
  rw [uuidReplaceF_fuel (by simp at hlen ⊢; omega) (Nat.le_refl _)]

theorem uuidReplace_cons_nomatch {c : Char} {l : List Char}
    (h : matchUUID (c :: l) = none) :
    uuidReplace (c :: l) = c :: uuidReplace l := by
  unfold uuidReplace
  simp only [List.length_cons, uuidReplaceF, h]

theorem uuidReplace_no_dash {l : List Char} (h : '-' ∉ l) : uuidReplace l = l := by
  induction l with
  | nil => rfl
  | cons c rest ih =>
    rw [uuidReplace_cons_nomatch (matchUUID_no_dash h)]
    rw [ih (fun hm => h (List.mem_cons_of_mem c hm))]

/-- A full-exact UUID at the head is replaced by the placeholder. -/
theorem uuidReplace_uuid_prefix {u : List Char} (hu : matchUUID u = some [])
    (r : List Char) :
    uuidReplace (u ++ r) = ['<', 'U', 'U', 'I', 'D', '>'] ++ uuidReplace r := by
  cases u with
  | nil => simp [matchUUID, takeHexN] at hu
  | cons c u' =>
    have hm : matchUUID ((c :: u') ++ r) = some r := by
      have := matchUUID_append (r := r) hu
      simpa using this
    exact uuidReplace_cons_match hm

theorem matchUUID_none1 {c : Char} (hc : isHexDigit c = false) (l : List Char) :
    matchUUID (c :: l) = none := by
  simp [matchUUID, takeHexN, hc]

theorem matchUUID_none2 {c2 : Char} (hc : isHexDigit c2 = false) (c1 : Char)
    (l : List Char) : matchUUID (c1 :: c2 :: l) = none := by
  by_cases h1 : isHexDigit c1 = true
  · simp [matchUUID, takeHexN, h1, hc]
  · simp [matchUUID, takeHexN, h1]

theorem matchUUID_none3 {c3 : Char} (hc : isHexDigit c3 = false) (c1 c2 : Char)
    (l : List Char) : matchUUID (c1 :: c2 :: c3 :: l) = none := by
  by_cases h1 : isHexDigit c1 = true
  · by_cases h2 : isHexDigit c2 = true
    · simp [matchUUID, takeHexN, h1, h2, hc]
    · simp [matchUUID, takeHexN, h1, h2]
  · simp [matchUUID, takeHexN, h1]

/-- Scanning the literal prefix `Failed job ` never matches a UUID: every
window of eight characters starting inside it hits a non-hex character. -/
theorem uuidReplace_failedjob (x : List Char) :
    uuidReplace ("Failed job ".data ++ x) = "Failed job ".data ++ uuidReplace x := by
  show uuidReplace ('F' :: 'a' :: 'i' :: 'l' :: 'e' :: 'd' :: ' ' :: 'j' :: 'o' :: 'b' ::
      ' ' :: x) = 'F' :: 'a' :: 'i' :: 'l' :: 'e' :: 'd' :: ' ' :: 'j' :: 'o' :: 'b' ::
      ' ' :: uuidReplace x
  rw [uuidReplace_cons_nomatch (matchUUID_none3 (by decide) _ _ _),
    uuidReplace_cons_nomatch (matchUUID_none2 (by decide) _ _),
    uuidReplace_cons_nomatch (matchUUID_none1 (by decide) _),
    uuidReplace_cons_nomatch (matchUUID_none1 (by decide) _),
    uuidReplace_cons_nomatch (matchUUID_none3 (by decide) _ _ _),
    uuidReplace_cons_nomatch (matchUUID_none2 (by decide) _ _),
    uuidReplace_cons_nomatch (matchUUID_none1 (by decide) _),
    uuidReplace_cons_nomatch (matchUUID_none1 (by decide) _),
    uuidReplace_cons_nomatch (matchUUID_none1 (by decide) _),
    uuidReplace_cons_nomatch (matchUUID_none2 (by decide) _ _),
    uuidReplace_cons_nomatch (matchUUID_none1 (by decide) _)]

theorem numReplace_cons_digit {c : Char} {l : List Char} (hc : c.isDigit = true) :
    numReplace (c :: l) = ['<', 'N', '>'] ++ numReplace (l.dropWhile Char.isDigit) := by
  unfold numReplace
  simp only [List.length_cons, numReplaceF, hc, if_true]
  rw [@numReplaceF_fuel l.length (l.dropWhile Char.isDigit).length (l.dropWhile Char.isDigit)
    (length_dropWhile_le _ _) (Nat.le_refl _)]

theorem numReplace_cons_nondigit {c : Char} {l : List Char} (hc : c.isDigit = false) :
    numReplace (c :: l) = c :: numReplace l := by
  unfold numReplace
  simp only [List.length_cons, numReplaceF, hc, Bool.false_eq_true, if_false]

theorem numReplace_nodigits {l : List Char} (h : ∀ c ∈ l, c.isDigit = false) :
    numReplace l = l := by
  induction l with
  | nil => rfl
  | cons c rest ih =>
    rw [numReplace_cons_nondigit (h c (List.mem_cons_self _ _))]
    rw [ih (fun d hd => h d (List.mem_cons_of_mem c hd))]

theorem numReplace_append_nodigits {a b : List Char} (h : ∀ c ∈ a, c.isDigit = false) :
    numReplace (a ++ b) = a ++ numReplace b := by
  induction a with
  | nil => rfl
  | cons c rest ih =>
    rw [List.cons_append, numReplace_cons_nondigit (h c (List.mem_cons_self _ _))]
    rw [ih (fun d hd => h d (List.mem_cons_of_mem c hd))]
    rfl

theorem dropWhile_digits_append {n b : List Char} (h : ∀ c ∈ n, c.isDigit = true) :
    (n ++ b).dropWhile Char.isDigit = b.dropWhile Char.isDigit := by
  induction n with
  | nil => rfl
  | cons c rest ih =>
    rw [List.cons_append, List.dropWhile_cons]
    simp only [h c (List.mem_cons_self _ _), if_true]
    exact ih (fun d hd => h d (List.mem_cons_of_mem c hd))

/-- A nonempty maximal digit run becomes exactly one `<N>`. -/
theorem numReplace_digit_run {n b : List Char} (hn : n ≠ [])
    (hd : ∀ c ∈ n, c.isDigit = true) (hb : b.dropWhile Char.isDigit = b) :
    numReplace (n ++ b) = ['<', 'N', '>'] ++ numReplace b := by
  cases n with
  | nil => exact absurd rfl hn
  | cons c n' =>
    rw [List.cons_append, numReplace_cons_digit (hd c (List.mem_cons_self _ _))]
    rw [dropWhile_digits_append (fun d hd' => hd d (List.mem_cons_of_mem c hd')), hb]

theorem dropPref_shape {p : Char} {ps l r : List Char} (h : dropPref (p :: ps) l = some r) :
    ∃ t, l = p :: t := by
  cases l with
  | nil => simp [dropPref] at h
  | cons d ds =>
    by_cases hd : d = p
    · exact ⟨ds, by rw [hd]⟩
    · simp [dropPref, hd] at h

theorem matchURL_head {l r : List Char} (h : matchURL l = some r) : ∃ t, l = 'h' :: t := by
  unfold matchURL at h
  split at h
  next heq =>
    exact dropPref_shape heq
  next => simp at h
  next =>
    split at h
    next heq => exact dropPref_shape heq
    next => simp at h

theorem urlReplace_cons_nomatch {c : Char} {l : List Char}
    (h : matchURL (c :: l) = none) : urlReplace (c :: l) = c :: urlReplace l := by
  unfold urlReplace
  simp only [List.length_cons, urlReplaceF, h]

theorem urlReplace_no_h {l : List Char} (h : 'h' ∉ l) : urlReplace l = l := by
  induction l with
  | nil => rfl
  | cons c rest ih =>
    have hm : matchURL (c :: rest) = none := by
      cases hm : matchURL (c :: rest) with
      | none => rfl
      | some r =>
        obtain ⟨t, ht⟩ := matchURL_head hm
        injection ht with ht1 _
        exact absurd (ht1 ▸ List.mem_cons_self c rest) h
    rw [urlReplace_cons_nomatch hm]
    rw [ih (fun hmem => h (List.mem_cons_of_mem c hmem))]

theorem strReplace_cons_nonquote {c : Char} {l : List Char} (hc : ¬c = '"') :
    strReplace (c :: l) = c :: strReplace l := by
  unfold strReplace
  simp only [List.length_cons, strReplaceF, hc, if_false]

theorem strReplace_no_quote {l : List Char} (h : '"' ∉ l) : strReplace l = l := by
  induction l with
  | nil => rfl
  | cons c rest ih =>
    have hc : ¬c = '"' := fun he => h (he ▸ List.mem_cons_self c rest)
    rw [strReplace_cons_nonquote hc]
    rw [ih (fun hmem => h (List.mem_cons_of_mem c hmem))]

/-! ## Pattern-counting lemmas for `handleReportError` -/
theorem trackPattern_count (s : HealerState) (now : Nat) (issue : IssueContext) :
    (getA (extractErrorPattern issue.error)
        (trackPattern s now issue).1.errorPatterns).map ErrorPattern.count =
      some (((getA (extractErrorPattern issue.error) s.errorPatterns).map
        ErrorPattern.count).getD 0 + 1) := by
  unfold trackPattern
  cases hold : getA (extractErrorPattern issue.error) s.errorPatterns with
  | some p => simp [getA_setA_self]
  | none => simp [getA_setA_self]

theorem trackPattern_other (s : HealerState) (now : Nat) (issue : IssueContext)
    (k : String) (hk : k ≠ extractErrorPattern issue.error) :
    getA k (trackPattern s now issue).1.errorPatterns = getA k s.errorPatterns := by
  unfold trackPattern
  cases hold : getA (extractErrorPattern issue.error) s.errorPatterns with
  | some p =>
    show getA k (setA (extractErrorPattern issue.error)
      { p with count := p.count + 1, lastSeen := now } s.errorPatterns) =
      getA k s.errorPatterns
    exact getA_setA_ne k _ _ s.errorPatterns (Ne.symm hk)
  | none =>
    show getA k (setA (extractErrorPattern issue.error)
      { pattern := extractErrorPattern issue.error, count := 1, lastSeen := now, resolution := none, autoResolved := 0 }
      s.errorPatterns) = getA k s.errorPatterns
    exact getA_setA_ne k _ _ s.errorPatterns (Ne.symm hk)

theorem trackPattern_issue_some (s : HealerState) (now : Nat) (issue : IssueContext)
    (p : ErrorPattern)
    (hold : getA (extractErrorPattern issue.error) s.errorPatterns = some p) :
    (trackPattern s now issue).2 = { issue with repeatCount := some (p.count + 1) } := by
  unfold trackPattern
  rw [hold]

theorem trackPattern_issue_none (s : HealerState) (now : Nat) (issue : IssueContext)
    (hold : getA (extractErrorPattern issue.error) s.errorPatterns = none) :
    (trackPattern s now issue).2 = issue := by
  unfold trackPattern
  rw [hold]

theorem applyResolve_patterns (now : Nat) (issue : IssueContext) (s : HealerState)
    (st : StrategyName) : (applyResolve now issue s st).errorPatterns = s.errorPatterns := by
  cases st <;> rfl

theorem applyResolve_escalations (now : Nat) (issue : IssueContext) (s : HealerState)
    (st : StrategyName) : (applyResolve now issue s st).escalations = s.escalations := by
  cases st <;> rfl

theorem recordResolution_count (s : HealerState) (key : String) (st : StrategyName)
    (k : String) :
    (getA k (recordResolution s key st).errorPatterns).map ErrorPattern.count =
      (getA k s.errorPatterns).map ErrorPattern.count := by
  unfold recordResolution
  cases hold : getA key s.errorPatterns with
  | none => rfl
  | some p =>
    by_cases hk : key = k
    · subst hk
      show (getA key (setA key
        { p with autoResolved := p.autoResolved + 1, resolution := some (resolveAction st) }
        s.errorPatterns)).map ErrorPattern.count = _
      rw [getA_setA_self, hold]
      rfl
    · show (getA k (setA key
        { p with autoResolved := p.autoResolved + 1, resolution := some (resolveAction st) }
         s.errorPatterns)).map ErrorPattern.count = _
      rw [getA_setA_ne k key _ s.errorPatterns hk]

theorem recordResolution_other (s : HealerState) (key : String) (st : StrategyName)
    (k : String) (hk : k ≠ key) :
    getA k (recordResolution s key st).errorPatterns = getA k s.errorPatterns := by
  unfold recordResolution
  cases hold : getA key s.errorPatterns with
  | none => rfl
  | some p =>
    show getA k (setA key
      { p with autoResolved := p.autoResolved + 1, resolution := some (resolveAction st) }
      s.errorPatterns) = _
    exact getA_setA_ne k key _ s.errorPatterns (Ne.symm hk)

/-- Every report increments the normalized pattern's count by exactly one
(creating it at count 1 when absent), whatever the resolution outcome. -/
theorem report_pattern_count (s : HealerState) (now : Nat) (escId : String)
    (issue : IssueContext) :
    (getA (extractErrorPattern issue.error)
        (handleReportError s now escId issue).2.errorPatterns).map ErrorPattern.count =
      some (((getA (extractErrorPattern issue.error) s.errorPatterns).map
        ErrorPattern.count).getD 0 + 1) := by
  unfold handleReportError
  cases hatt : attemptAutoResolution
      (trackPattern { s with totalErrors := s.totalErrors + 1 } now issue).2 with
  | some st =>
    show (getA (extractErrorPattern issue.error) (recordResolution _ _ st).errorPatterns).map
      ErrorPattern.count = _
    rw [recordResolution_count]
    show (getA (extractErrorPattern issue.error) (applyResolve _ _ _ st).errorPatterns).map
      ErrorPattern.count = _
    rw [applyResolve_patterns]
    exact trackPattern_count { s with totalErrors := s.totalErrors + 1 } now issue
  | none =>
    exact trackPattern_count { s with totalErrors := s.totalErrors + 1 } now issue

/-- A report leaves every other pattern's entry untouched. -/
theorem report_pattern_other (s : HealerState) (now : Nat) (escId : String)
    (issue : IssueContext) (k : String) (hk : k ≠ extractErrorPattern issue.error) :
    getA k (handleReportError s now escId issue).2.errorPatterns =
      getA k s.errorPatterns := by
  unfold handleReportError
  cases hatt : attemptAutoResolution
      (trackPattern { s with totalErrors := s.totalErrors + 1 } now issue).2 with
  | some st =>
    show getA k (recordResolution _ _ st).errorPatterns = _
    rw [recordResolution_other _ _ _ _ hk]
    show getA k (applyResolve _ _ _ st).errorPatterns = _
    rw [applyResolve_patterns]
    exact trackPattern_other { s with totalErrors := s.totalErrors + 1 } now issue k hk
  | none =>
    exact trackPattern_other { s with totalErrors := s.totalErrors + 1 } now issue k hk

/-- C6: the concrete error normalizes to `Failed job <UUID> after <N>
retries`; every error of the shape `Failed job <uuid> after <digits>
retries` — for an arbitrary exact UUID and an arbitrary nonempty digit run
— normalizes to the same key; and every report increments exactly one
pattern's count (the key's entry goes up by one, created at 1 when absent,
and every other entry is untouched). -/
theorem error_pattern_normalization :
    (extractErrorPattern
      "Failed job 123e4567-e89b-12d3-a456-426614174000 after 42 retries" =
      "Failed job <UUID> after <N> retries") ∧
    (∀ u n : List Char, matchUUID u = some [] → n ≠ [] → (∀ c ∈ n, c.isDigit = true) →
      extractErrorPattern (String.mk
        ("Failed job ".data ++ u ++ " after ".data ++ n ++ " retries".data)) =
        "Failed job <UUID> after <N> retries") ∧
    (∀ s now escId issue,
      (getA (extractErrorPattern issue.error)
        (handleReportError s now escId issue).2.errorPatterns).map ErrorPattern.count =
      some (((getA (extractErrorPattern issue.error) s.errorPatterns).map
        ErrorPattern.count).getD 0 + 1)) ∧
    (∀ s now escId issue k, k ≠ extractErrorPattern issue.error →
      getA k (handleReportError s now escId issue).2.errorPatterns =
        getA k s.errorPatterns) := by
  refine ⟨by decide, ?_, report_pattern_count, report_pattern_other⟩
  intro u n hu hn hd
  have hdash : ('-' : Char) ∉ " after ".data ++ (n ++ " retries".data) := by
    intro hm
    rcases List.mem_append.mp hm with h | h
    · exact absurd h (by decide)
    · rcases List.mem_append.mp h with h | h
      · exact absurd (hd '-' h) (by decide)
      · exact absurd h (by decide)
  show String.mk ((strReplace (urlReplace (numReplace (uuidReplace
    ("Failed job ".data ++ u ++ " after ".data ++ n ++ " retries".data))))).take 200) = _
  have hassoc : "Failed job ".data ++ u ++ " after ".data ++ n ++ " retries".data =
      "Failed job ".data ++ (u ++ (" after ".data ++ (n ++ " retries".data))) := by
    simp [List.append_assoc]
  rw [hassoc, uuidReplace_failedjob, uuidReplace_uuid_prefix hu,
    uuidReplace_no_dash hdash]
  have hnum : numReplace ("Failed job ".data ++ (['<', 'U', 'U', 'I', 'D', '>'] ++
      (" after ".data ++ (n ++ " retries".data)))) =
      "Failed job <UUID> after <N> retries".data := by
    have e1 : "Failed job ".data ++ (['<', 'U', 'U', 'I', 'D', '>'] ++
        (" after ".data ++ (n ++ " retries".data))) =
        "Failed job <UUID> after ".data ++ (n ++ " retries".data) := rfl
    rw [e1, numReplace_append_nodigits (by decide),
      numReplace_digit_run hn hd (by decide),
      numReplace_nodigits (by decide)]
    decide
  rw [hnum]
  decide

theorem error_pattern_normalization_witness :
    extractErrorPattern (String.mk
      ("Failed job ".data ++ "ffffffff-aaaa-bbbb-cccc-000000000000".data ++
        " after ".data ++ "7".data ++ " retries".data)) =
      "Failed job <UUID> after <N> retries" ∧
    (getA (extractErrorPattern issueDisk.error)
      (handleReportError HealerState.empty 0 "esc-1" issueDisk).2.errorPatterns).map
        ErrorPattern.count =
      some (((getA (extractErrorPattern issueDisk.error)
        HealerState.empty.errorPatterns).map ErrorPattern.count).getD 0 + 1) ∧
    getA "other-key" (handleReportError HealerState.empty 0 "esc-1"
      issueDisk).2.errorPatterns = getA "other-key" HealerState.empty.errorPatterns :=
  ⟨error_pattern_normalization.2.1 "ffffffff-aaaa-bbbb-cccc-000000000000".data "7".data
    (by decide) (by decide) (by decide),
   error_pattern_normalization.2.2.1 HealerState.empty 0 "esc-1" issueDisk,
   error_pattern_normalization.2.2.2 HealerState.empty 0 "esc-1" issueDisk "other-key"
    (by decide)⟩

theorem recordResolution_configStore (s : HealerState) (key : String)
    (st : StrategyName) : (recordResolution s key st).configStore = s.configStore := by
  unfold recordResolution
  cases getA key s.errorPatterns <;> rfl

theorem trackPattern_escalations (s : HealerState) (now : Nat) (issue : IssueContext) :
    (trackPattern s now issue).1.escalations = s.escalations := by
  unfold trackPattern
  cases getA (extractErrorPattern issue.error) s.errorPatterns <;> rfl

/-- When the three error-text strategies do not match and the metadata
carries a repeat count of at least 3, the circuit breaker is the first
matching strategy. -/
theorem attempt_breaker {i : IssueContext} {m : Nat}
    (h1 : canResolve StrategyName.retryTransient i = false)
    (h2 : canResolve StrategyName.refreshAuth i = false)
    (h3 : canResolve StrategyName.resourceCleanup i = false)
    (hrc : i.repeatCount = some m) (hm : 3 ≤ m) :
    attemptAutoResolution i = some StrategyName.circuitBreaker := by
  have hcb : canResolve StrategyName.circuitBreaker i = true := by
    show (match i.repeatCount with
      | some n => decide (3 ≤ n)
      | none => false) = true
    rw [hrc]
    exact decide_eq_true hm
  unfold attemptAutoResolution strategyOrder
  simp [List.find?, h1, h2, h3, hcb]

/-- The third report of a recurring pattern (count 2 before the report)
activates the circuit breaker, writing the 5-minute-cooldown flag. -/
theorem third_report_breaker (s2 : HealerState) (now3 : Nat) (e3 : String)
    (issue : IssueContext) (p2 : ErrorPattern)
    (hold : getA (extractErrorPattern issue.error) s2.errorPatterns = some p2)
    (hc2 : 3 ≤ p2.count + 1)
    (h1 : canResolve StrategyName.retryTransient issue = false)
    (h2 : canResolve StrategyName.refreshAuth issue = false)
    (h3 : canResolve StrategyName.resourceCleanup issue = false) :
    (handleReportError s2 now3 e3 issue).1.action = "Circuit breaker activated" ∧
    (handleReportError s2 now3 e3 issue).1.autoResolved = true ∧
    getA ("circuit_breaker:" ++ issue.type_)
      (handleReportError s2 now3 e3 issue).2.configStore =
      some { activatedAt := now3, reason := issue.error, cooldownUntil := now3 + 5 * 60 * 1000 } := by
  have htp : (trackPattern { s2 with totalErrors := s2.totalErrors + 1 } now3 issue).2 =
      { issue with repeatCount := some (p2.count + 1) } :=
    trackPattern_issue_some _ now3 issue p2 hold
  have hatt : attemptAutoResolution
      (trackPattern { s2 with totalErrors := s2.totalErrors + 1 } now3 issue).2 =
      some StrategyName.circuitBreaker := by
    rw [htp]
    exact attempt_breaker h1 h2 h3 rfl hc2
  unfold handleReportError
  rw [hatt]
  refine ⟨rfl, rfl, ?_⟩
  show getA ("circuit_breaker:" ++ issue.type_)
    (recordResolution _ _ StrategyName.circuitBreaker).configStore = _
  rw [recordResolution_configStore]
  rw [htp]
  show getA ("circuit_breaker:" ++ issue.type_)
    (setA ("circuit_breaker:" ++ issue.type_)
      ({ activatedAt := now3, reason := issue.error,
         cooldownUntil := now3 + 5 * 60 * 1000 } : BreakerEntry)
      (trackPattern { s2 with totalErrors := s2.totalErrors + 1 }
        now3 issue).1.configStore) =
    some { activatedAt := now3, reason := issue.error, cooldownUntil := now3 + 5 * 60 * 1000 }
  exact getA_setA_self _ _ _

/-- C7 (counterexample): an error such as `timeout` that matches an earlier
strategy never reaches the circuit breaker.  Reported three consecutive
times, the pattern count does reach 3 on the third report, yet the third
remediation is `Scheduled retry` (retry-transient is tried first) and no
breaker flag is ever written. -/
theorem circuit_breaker_counterexample :
    (getA (extractErrorPattern issueTimeout.error) rep3.2.errorPatterns).map
      ErrorPattern.count = some 3 ∧
    rep3.1.action = "Scheduled retry" ∧
    rep3.1.action ≠ "Circuit breaker activated" ∧
    rep3.2.configStore = [] := by
  decide

/-- C7 (amended): for an issue whose error text matches none of the three
strategies ordered before the breaker (retry-transient, refresh-auth,
resource-cleanup) and whose normalized pattern is new, the third
consecutive report injects `repeatCount = 3`, the circuit-breaker
predicate matches, the report's remediation is `Circuit breaker activated`,
and a breaker flag with a 5-minute cooldown is written for the issue's
type. -/
theorem circuit_breaker_third_report_amended :
    ∀ s now1 now2 now3 e1 e2 e3 issue,
      getA (extractErrorPattern issue.error) s.errorPatterns = none →
      canResolve StrategyName.retryTransient issue = false →
      canResolve StrategyName.refreshAuth issue = false →
      canResolve StrategyName.resourceCleanup issue = false →
      (handleReportError (handleReportError (handleReportError s now1 e1 issue).2
          now2 e2 issue).2 now3 e3 issue).1.action = "Circuit breaker activated" ∧
      (handleReportError (handleReportError (handleReportError s now1 e1 issue).2
          now2 e2 issue).2 now3 e3 issue).1.autoResolved = true ∧
      getA ("circuit_breaker:" ++ issue.type_)
        (handleReportError (handleReportError (handleReportError s now1 e1 issue).2
          now2 e2 issue).2 now3 e3 issue).2.configStore =
        some { activatedAt := now3, reason := issue.error, cooldownUntil := now3 + 5 * 60 * 1000 } := by
  intro s now1 now2 now3 e1 e2 e3 issue hfresh h1 h2 h3
  have hc1 := report_pattern_count s now1 e1 issue
  rw [hfresh] at hc1
  simp only [Option.map_none', Option.getD_none] at hc1
  have hc2 := report_pattern_count (handleReportError s now1 e1 issue).2 now2 e2 issue
  rw [hc1] at hc2
  simp only [Option.getD_some] at hc2
  rcases Option.map_eq_some'.mp hc2 with ⟨p2, hp2, hp2c⟩
  exact third_report_breaker _ now3 e3 issue p2 hp2 (by omega) h1 h2 h3

theorem circuit_breaker_third_report_amended_witness :
    (handleReportError (handleReportError (handleReportError HealerState.empty 0 "e1"
        issueWidget).2 1 "e2" issueWidget).2 2 "e3" issueWidget).1.action =
      "Circuit breaker activated" ∧
    (handleReportError (handleReportError (handleReportError HealerState.empty 0 "e1"
        issueWidget).2 1 "e2" issueWidget).2 2 "e3" issueWidget).1.autoResolved = true ∧
    getA ("circuit_breaker:" ++ issueWidget.type_)
      (handleReportError (handleReportError (handleReportError HealerState.empty 0 "e1"
        issueWidget).2 1 "e2" issueWidget).2 2 "e3" issueWidget).2.configStore =
      some { activatedAt := 2, reason := issueWidget.error, cooldownUntil := 2 + 5 * 60 * 1000 } :=
  circuit_breaker_third_report_amended HealerState.empty 0 1 2 "e1" "e2" "e3" issueWidget
    (by decide) (by decide) (by decide) (by decide)

/-- C8: a first-time report whose error matches no strategy predicate (for
example `disk is purple`) produces exactly one new escalation with severity
`warning` and is not auto-resolved; in general every unmatched first-time
report appends exactly one escalation whose severity is `critical` when the
text contains crash/fatal/unrecoverable/data-loss keywords, `error` when it
contains failed/error/exception, and `warning` otherwise. -/
theorem unmatched_report_escalates :
    ((handleReportError HealerState.empty 0 "esc-1" issueDisk).1.autoResolved = false ∧
     (handleReportError HealerState.empty 0 "esc-1" issueDisk).2.escalations =
       [{ id := "esc-1", issue := "disk is purple", severity := Severity.warning,
          attempts := 1, createdAt := 0, resolvedAt := none }]) ∧
    (∀ s now escId issue,
      getA (extractErrorPattern issue.error) s.errorPatterns = none →
      (∀ st, canResolve st issue = false) →
      (handleReportError s now escId issue).1.autoResolved = false ∧
      (handleReportError s now escId issue).2.escalations =
        s.escalations ++
          [{ id := escId, issue := issue.error, severity := determineSeverity issue,
             attempts := 1, createdAt := now, resolvedAt := none }]) ∧
    (∀ issue : IssueContext,
      ((["crash", "fatal", "unrecoverable", "data loss"].any
          (fun p => lcIncludes issue.error p)) = true →
        determineSeverity issue = Severity.critical) ∧
      ((["crash", "fatal", "unrecoverable", "data loss"].any
          (fun p => lcIncludes issue.error p)) = false →
        (["failed", "error", "exception"].any
          (fun p => lcIncludes issue.error p)) = true →
        determineSeverity issue = Severity.error) ∧
      ((["crash", "fatal", "unrecoverable", "data loss"].any
          (fun p => lcIncludes issue.error p)) = false →
        (["failed", "error", "exception"].any
          (fun p => lcIncludes issue.error p)) = false →
        determineSeverity issue = Severity.warning)) := by
  refine ⟨by decide, ?_, ?_⟩
  · intro s now escId issue hfresh hall
    have htp : (trackPattern { s with totalErrors := s.totalErrors + 1 } now issue).2 =
        issue := trackPattern_issue_none _ now issue hfresh
    have hatt : attemptAutoResolution
        (trackPattern { s with totalErrors := s.totalErrors + 1 } now issue).2 = none := by
      rw [htp]
      unfold attemptAutoResolution
      refine List.find?_eq_none.mpr ?_
      intro st _
      rw [hall st]
      simp
    unfold handleReportError
    rw [hatt]
    refine ⟨rfl, ?_⟩
    show (trackPattern { s with totalErrors := s.totalErrors + 1 } now issue).1.escalations ++
      [{ id := escId
         issue := (trackPattern { s with totalErrors := s.totalErrors + 1 } now issue).2.error
         severity := determineSeverity
           (trackPattern { s with totalErrors := s.totalErrors + 1 } now issue).2
         attempts := 1
         createdAt := now
         resolvedAt := none }] = _
    rw [htp, trackPattern_escalations]
  · intro issue
    refine ⟨?_, ?_, ?_⟩
    · intro h1
      unfold determineSeverity
      rw [if_pos h1]
    · intro h1 h2
      unfold determineSeverity
      rw [if_neg (by rw [h1]; simp), if_pos h2]
    · intro h1 h2
      unfold determineSeverity
      rw [if_neg (by rw [h1]; simp), if_neg (by rw [h2]; simp)]

theorem unmatched_report_escalates_witness :
    ((handleReportError HealerState.empty 7 "esc-9" issueWidget).1.autoResolved = false ∧
     (handleReportError HealerState.empty 7 "esc-9" issueWidget).2.escalations =
       HealerState.empty.escalations ++
         [{ id := "esc-9", issue := issueWidget.error,
            severity := determineSeverity issueWidget, attempts := 1, createdAt := 7,
            resolvedAt := none }]) ∧
    ((["crash", "fatal", "unrecoverable", "data loss"].any
        (fun p => lcIncludes issueDisk.error p)) = false →
      (["failed", "error", "exception"].any
        (fun p => lcIncludes issueDisk.error p)) = false →
      determineSeverity issueDisk = Severity.warning) :=
  ⟨unmatched_report_escalates.2.1 HealerState.empty 7 "esc-9" issueWidget
    (by decide) (by intro st; cases st <;> decide),
   (unmatched_report_escalates.2.2 issueDisk).2.2⟩

end CollabBoard
